import Mathlib

/-!
Verification of the Century Communities scraping pipeline
(`get_centurycommunities_page.py`, `get_centurycommunities_api_links.py`).

The Python sources are shallowly embedded: HTML lookups become optional
fields of explicit page/card structures, `re.search` calls become
executable character-list matchers with the same leftmost/greedy
semantics, Python exceptions become `Except Unit`, and `fetch_page`'s
outer `try/except` becomes `Except.toOption`.  Floating point values
(latitude/longitude, bath counts) undergo no arithmetic in the source,
only parsing, comparison and printing of short decimal literals, so they
are represented by `Rat`.
-/

namespace CenturyCommunities

/-- ASCII whitespace class of Python's `\s` (`str.split()` likewise). -/
def isWs (c : Char) : Bool :=
  c = ' ' || c = '\t' || c = '\n' || c = '\r' || c = '\x0b' || c = '\x0c'

/-- Character class `[\d,]` used by the price and sqft regexes. -/
def isDC (c : Char) : Bool := c.isDigit || c = ','

/-- Python `str.strip()` (no argument): drop leading and trailing runs of
whitespace. -/
def pyStrip (l : List Char) : List Char :=
  ((l.dropWhile isWs).reverse.dropWhile isWs).reverse

/-- `pyStrip` on `String`s. -/
def pyStripS (s : String) : String := String.mk (pyStrip s.data)

/-- Python `str.split()` (no argument): maximal runs of non-whitespace,
empty pieces discarded. -/
def pySplitWs (l : List Char) : List (List Char) :=
  let step := fun (c : Char) (p : List (List Char) × List Char) =>
    if isWs c then (if p.2 = [] then p else (p.2 :: p.1, ([] : List Char)))
    else (p.1, c :: p.2)
  let r := l.foldr step ([], [])
  if r.2 = [] then r.1 else r.2 :: r.1

/-- Python `str.split(sep)` for a one-character separator: empty pieces
kept, result always non-empty. -/
def pySplitChar (sep : Char) (l : List Char) : List (List Char) :=
  l.foldr
    (fun c acc =>
      match acc with
      | h :: t => if c = sep then [] :: h :: t else (c :: h) :: t
      | [] => [[c]])
    [[]]

/-- Prefix of `l` before the first occurrence of the (multi-character)
separator `sep`; the whole list when `sep` does not occur.  This is
Python's `l.split(sep)[0]`. -/
def beforeSep (sep : List Char) : List Char → List Char
  | [] => []
  | c :: t => if sep.isPrefixOf (c :: t) then [] else c :: beforeSep sep t

/-- Digits of a decimal numeral, `none` when the list is empty or holds a
non-digit (Python `int(...)` raising `ValueError`). -/
def digitsToNat? (l : List Char) : Option Nat :=
  if l ≠ [] ∧ l.all Char.isDigit then
    some (l.foldl (fun a c => a * 10 + (c.toNat - 48)) 0)
  else none

/-- Python `int(text)` on a decimal literal with optional sign and
surrounding whitespace. -/
def pyInt (l : List Char) : Option Int :=
  match pyStrip l with
  | '+' :: d => (digitsToNat? d).map Int.ofNat
  | '-' :: d => (digitsToNat? d).map (fun n => -(n : Int))
  | d => (digitsToNat? d).map Int.ofNat

def natOfDigits (l : List Char) : Nat :=
  l.foldl (fun a c => a * 10 + (c.toNat - 48)) 0

/-- Split at the first `'.'` when one occurs. -/
def splitDot (t : List Char) : List Char × Option (List Char) :=
  if '.' ∈ t then
    (t.takeWhile (fun c => ¬ c = '.'), some ((t.dropWhile (fun c => ¬ c = '.')).drop 1))
  else (t, none)

def decToRat? (ip fp : List Char) : Option Rat :=
  if ip ++ fp = [] then none
  else if ip.all Char.isDigit ∧ fp.all Char.isDigit then
    some ((natOfDigits ip : Rat) + (natOfDigits fp : Rat) / ((10 : Rat) ^ fp.length))
  else none

def pyFloatCore (t : List Char) : Option Rat :=
  match splitDot t with
  | (ip, none) => (digitsToNat? ip).map (fun n => (n : Rat))
  | (ip, some fp) => decToRat? ip fp

/-- Python `float(text)` restricted to plain decimal literals (optional
sign, digits, at most one point); exponent/`inf`/`nan` spellings, which
never arise from the scraped bath counts, are not modelled. -/
def pyFloat (l : List Char) : Option Rat :=
  match pyStrip l with
  | '+' :: t => pyFloatCore t
  | '-' :: t => (pyFloatCore t).map Neg.neg
  | t => pyFloatCore t

/-- Python `' '.join(text.split())`: collapse all whitespace runs. -/
def pyNormWs (s : String) : String :=
  String.intercalate " " ((pySplitWs s.data).map String.mk)

/-- The line-cleaning idiom
`[part.strip() for part in text.split('\n') if part.strip()]`. -/
def cleanLines (t : String) : List String :=
  (((pySplitChar '\n' t.data).map pyStrip).filter (fun l => ¬ l = [])).map String.mk

/-- `text.lower()` as a character list (ASCII case folding, which covers
every letter the scraped markup tokens use). -/
def lowerData (s : String) : List Char := s.data.map Char.toLower

/-- The site origin prefixed onto relative URLs. -/
def ccDomain : List Char := "https://www.centurycommunities.com".data

/-- The URL normalization `if not href.startswith('http'): href = origin + href`. -/
def normUrlL (l : List Char) : List Char :=
  if "http".data.isPrefixOf l then l else ccDomain ++ l

def normUrl (s : String) : String := String.mk (normUrlL s.data)

/-! ### `re.search` models for the three field extractors

Each Python pattern is compiled to a deterministic matcher `...MatchFrom`
that attempts the pattern anchored at the head of the list and returns
the captured group, plus the generic `searchWith` loop which realizes
`re.search`'s leftmost-position semantics.  For each of these patterns,
greedy matching without backtracking is complete: every quantified class
(`[\d,]+`, `\d+`, `\s*`, `\.\d+`) is followed by a literal that no
character of the class can begin, so shrinking a maximal run can never
turn a failure into a success. -/

/-- `re.search`: try the anchored matcher at each position, leftmost
success wins. -/
def searchWith (f : List Char → Option (List Char)) : List Char → Option (List Char)
  | [] => none
  | c :: t =>
    match f (c :: t) with
    | some g => some g
    | none => searchWith f t

/-- Anchored matcher for `\$[\d,]+` (pattern of `extract_price`),
returning the whole match. -/
def priceMatchFrom : List Char → Option (List Char)
  | [] => none
  | c :: t =>
    if c = '$' then
      let g := t.takeWhile isDC
      if g = [] then none else some ('$' :: g)
    else none

/-- `extract_price`: first substring matching `\$[\d,]+`, else `None`. -/
def extract_price (s : String) : Option String :=
  (searchWith priceMatchFrom s.data).map String.mk

/-- `\s*ft` continuation check (on lowercased text). -/
def wsFt (l : List Char) : Bool :=
  match l.dropWhile isWs with
  | 'f' :: 't' :: _ => true
  | _ => false

/-- Continuation `\s*sq(?:\.|uare)?\s*ft` of the sqft pattern, applied to
the text following the captured digit group. -/
def sqftAfterGroup (l : List Char) : Bool :=
  match l.dropWhile isWs with
  | 's' :: 'q' :: r =>
    wsFt r ||
    (match r with
     | '.' :: r2 => wsFt r2
     | _ => false) ||
    (match r with
     | 'u' :: 'a' :: 'r' :: 'e' :: r2 => wsFt r2
     | _ => false)
  | _ => false

/-- Anchored matcher for `([\d,]+)\s*sq(?:\.|uare)?\s*ft`, returning the
group. -/
def sqftMatchFrom (l : List Char) : Option (List Char) :=
  let g := l.takeWhile isDC
  if g = [] then none
  else if sqftAfterGroup (l.dropWhile isDC) then some g else none

/-- `extract_sqft`: search the lowercased text for
`([\d,]+)\s*sq(?:\.|uare)?\s*ft` and return group 1 with commas
stripped. -/
def extract_sqft (s : String) : Option String :=
  (searchWith sqftMatchFrom (lowerData s)).map
    (fun g => String.mk (g.filter (fun c => ¬ c = ',')))

/-- Token check `\s*(?:Bedroom|Bed|BR|br)` (case-folded, so the
alternation collapses to a `bed`/`br` head test). -/
def bedsTok (l : List Char) : Bool :=
  match l.dropWhile isWs with
  | 'b' :: 'e' :: 'd' :: _ => true
  | 'b' :: 'r' :: _ => true
  | _ => false

/-- Anchored matcher for `(\d+)\s*(?:Bedroom|Bed|BR|br)` on lowercased
text, returning the digit group. -/
def bedsMatchFrom (l : List Char) : Option (List Char) :=
  let g := l.takeWhile Char.isDigit
  if g = [] then none
  else if bedsTok (l.dropWhile Char.isDigit) then some g else none

/-- Token check `\s*(?:Bathroom|Bath|BA|ba)` (case-folded: a `ba` head
test). -/
def bathsTok (l : List Char) : Bool :=
  match l.dropWhile isWs with
  | 'b' :: 'a' :: _ => true
  | _ => false

/-- Anchored matcher for `(\d+(?:\.\d+)?)\s*(?:Bathroom|Bath|BA|ba)` on
lowercased text, returning the decimal group. -/
def bathsMatchFrom (l : List Char) : Option (List Char) :=
  let d := l.takeWhile Char.isDigit
  if d = [] then none
  else
    match l.dropWhile Char.isDigit with
    | '.' :: r2 =>
      let f := r2.takeWhile Char.isDigit
      if f = [] then
        if bathsTok ('.' :: r2) then some d else none
      else if bathsTok (r2.dropWhile Char.isDigit) then some (d ++ '.' :: f)
      else none
    | r => if bathsTok r then some d else none

def bedsPart (s : String) : Option String :=
  (searchWith bedsMatchFrom (lowerData s)).map String.mk

def bathsPart (s : String) : Option String :=
  (searchWith bathsMatchFrom (lowerData s)).map String.mk

/-- `extract_beds_baths`: the two independent searches; the captured
groups consist of digits and dots, which ASCII case folding fixes, so
searching the lowercased text returns the original substrings. -/
def extract_beds_baths (s : String) : Option String × Option String :=
  (bedsPart s, bathsPart s)

/-! #### Declarative occurrence predicates for the extractor patterns

These state, independently of the matcher implementations, that a
pattern occurs in a character list; the theorems below connect them to
the executable extractors. -/

def dcAll (g : List Char) : Prop := ∀ c ∈ g, isDC c = true

def wsAll (w : List Char) : Prop := ∀ c ∈ w, isWs c = true

def digitAll (g : List Char) : Prop := ∀ c ∈ g, c.isDigit = true

/-- `\$[\d,]+` occurs. -/
def PriceOcc (l : List Char) : Prop :=
  ∃ p g r, l = p ++ '$' :: (g ++ r) ∧ g ≠ [] ∧ dcAll g

/-- The optional middle of the square-footage token: `sq ft`, `sq.ft`,
or `square ft` (with optional whitespace before `ft`). -/
def SqftMid (m : List Char) : Prop :=
  m = [] ∨ m = ['.'] ∨ m = ['u', 'a', 'r', 'e']

/-- `([\d,]+)\s*sq(?:\.|uare)?\s*ft` occurs (in lowercased text). -/
def SqftOcc (l : List Char) : Prop :=
  ∃ p g w m w2 r,
    l = p ++ g ++ w ++ 's' :: 'q' :: (m ++ w2 ++ 'f' :: 't' :: r) ∧
    g ≠ [] ∧ dcAll g ∧ wsAll w ∧ SqftMid m ∧ wsAll w2

/-- Case-folded head of the bedroom token alternation:
`bedroom`/`bed`/`br` all start with `bed` or `br`. -/
def BedsTokHead (t : List Char) : Prop := t = ['b', 'e', 'd'] ∨ t = ['b', 'r']

/-- `(\d+)\s*(?:Bedroom|Bed|BR|br)` occurs (in lowercased text). -/
def BedsOcc (l : List Char) : Prop :=
  ∃ p g w t r, l = p ++ g ++ w ++ t ++ r ∧ g ≠ [] ∧ digitAll g ∧ wsAll w ∧ BedsTokHead t

/-- Shape of the bath group `\d+(?:\.\d+)?`. -/
def BathGroup (g : List Char) : Prop :=
  (g ≠ [] ∧ digitAll g) ∨
  ∃ d f, g = d ++ '.' :: f ∧ d ≠ [] ∧ f ≠ [] ∧ digitAll d ∧ digitAll f

/-- `(\d+(?:\.\d+)?)\s*(?:Bathroom|Bath|BA|ba)` occurs (in lowercased
text; every token alternative starts with `ba`). -/
def BathsOcc (l : List Char) : Prop :=
  ∃ p g w r, l = p ++ g ++ w ++ 'b' :: 'a' :: r ∧ BathGroup g ∧ wsAll w

/-- The `if not text: return None` guard: the Python extractors accept
`None` (and falsy `""`) besides strings. -/
def extract_price_opt : Option String → Option String
  | none => none
  | some t => if t = "" then none else extract_price t

def extract_beds_baths_opt : Option String → Option String × Option String
  | none => (none, none)
  | some t => if t = "" then (none, none) else extract_beds_baths t

def extract_sqft_opt : Option String → Option String
  | none => none
  | some t => if t = "" then none else extract_sqft t

/-! ### Python number formatting -/

/-- Insert `','` after every third character of a reversed digit list. -/
def group3Rev : List Char → List Char
  | a :: b :: c :: d :: t => a :: b :: c :: ',' :: group3Rev (d :: t)
  | l => l

/-- `f"{n:,}"` for a natural number. -/
def commaNat (n : Nat) : String :=
  String.mk (group3Rev (toString n).data.reverse).reverse

/-- `f"{n:,}"` for a Python int. -/
def pyCommaFmt (n : Int) : String :=
  if n < 0 then "-" ++ commaNat n.natAbs else commaNat n.natAbs

/-- `String.mk (List.replicate ..)` left zero padding. -/
def padZeros (k : Nat) (s : String) : String :=
  String.mk (List.replicate (k - s.length) '0' ++ s.data)

/-- `str(x)` for a Python float holding a short decimal value: the
shortest decimal form, with at least one fractional digit.  Defined for
rationals with decimal denominators (the only ones `pyFloat`
produces). -/
def pyFloatStr (q : Rat) : String :=
  let sign := if q < 0 then "-" else ""
  let n := q.num.natAbs
  let d := q.den
  match (List.range (d + 1)).find? (fun k => 10 ^ k % d = 0) with
  | some k =>
    let k1 := max k 1
    let scaled := n * 10 ^ k1 / d
    sign ++ toString (scaled / 10 ^ k1) ++ "." ++ padZeros k1 (toString (scaled % 10 ^ k1))
  | none => sign ++ toString n ++ "/" ++ toString d

/-! ### Aggregate ranges (fetch_page lines 525-545) -/

/-- Python `min(list)`: `none` on an empty list (where Python raises;
the source only calls it on non-empty lists). -/
def pyMin {α : Type} [Min α] : List α → Option α
  | [] => none
  | v :: vs => some (vs.foldl min v)

def pyMax {α : Type} [Max α] : List α → Option α
  | [] => none
  | v :: vs => some (vs.foldl max v)

/-- `data["details"]["sqft_range"]` from the accumulated homesite sqft
values. -/
def sqftRange (vals : List Int) : Option String :=
  match pyMin vals, pyMax vals with
  | some mn, some mx =>
    some (if mn = mx then pyCommaFmt mn ++ " sq ft"
          else pyCommaFmt mn ++ " - " ++ pyCommaFmt mx ++ " sq ft")
  | _, _ => none

/-- `data["details"]["bed_range"]` from the accumulated bed counts. -/
def bedRange (vals : List Int) : Option String :=
  match pyMin vals, pyMax vals with
  | some mn, some mx =>
    some (if mn = mx then toString mn ++ " Beds"
          else toString mn ++ " - " ++ toString mx ++ " Beds")
  | _, _ => none

/-- `data["details"]["bath_range"]` from the accumulated bath counts. -/
def bathRange (vals : List Rat) : Option String :=
  match pyMin vals, pyMax vals with
  | some mn, some mx =>
    some (if mn = mx then pyFloatStr mn ++ " Baths"
          else pyFloatStr mn ++ " - " ++ pyFloatStr mx ++ " Baths")
  | _, _ => none

/-- `data["details"]["stories_range"]`: the fixed `max sqft > 2000`
heuristic. -/
def storiesRange (vals : List Int) : Option String :=
  match pyMax vals with
  | some mx => some (if 2000 < mx then "2 Story" else "1 Story")
  | none => none

/-! ### Link discovery (`get_centurycommunities_api_links.py`,
`get_community_links`) -/

/-- A community card on a region page: `none` when the card has no
`h2.card-title`; `some none` when the title has no anchor with a truthy
`href`; `some (some h)` for an anchor carrying `href` attribute `h`
(the code additionally requires `h` truthy, i.e. non-empty). -/
structure CCard where
  titleHref : Option (Option String)
deriving DecidableEq, Inhabited

/-- The per-card accumulation of `get_community_links`: normalize the
href and append it unless already collected (the `if href not in
community_links` check). -/
def collectCards (acc : List String) : List CCard → List String
  | [] => acc
  | c :: cs =>
    match c.titleHref with
    | some (some h) =>
      if h = "" then collectCards acc cs
      else
        let u := normUrl h
        collectCards (if u ∈ acc then acc else acc ++ [u]) cs
    | _ => collectCards acc cs

/-- The per-region loop; a `none` region models a fetch/parse exception,
which the code logs and skips (`continue`). -/
def collectRegions (acc : List String) : List (Option (List CCard)) → List String
  | [] => acc
  | none :: rs => collectRegions acc rs
  | some cards :: rs => collectRegions (collectCards acc cards) rs

/-- `get_community_links`: accumulate over all regions, then
`list(set(community_links))`.  A Python set holds each element once in
an unspecified order; it is modelled by `List.dedup`, one concrete
representative of that order, adequate for the order-agnostic
properties stated below (the accumulator is in fact already
duplicate-free). -/
def get_community_links (regions : List (Option (List CCard))) : List String :=
  (collectRegions [] regions).dedup

/-- A URL is discovered when some successfully fetched region has a card
whose title anchor carries a truthy href normalizing to it. -/
def IsDiscovered (regions : List (Option (List CCard))) (u : String) : Prop :=
  ∃ cards, some cards ∈ regions ∧
    ∃ c ∈ cards, ∃ h, c.titleHref = some (some h) ∧ h ≠ "" ∧ normUrl h = u

/-! ### Geocoding fallback (`get_coordinates`) -/

/-- `re.sub(r',+', ',', address)`. -/
def collapseCommas : List Char → List Char
  | [] => []
  | [c] => [c]
  | c :: d :: t =>
    if c = ',' ∧ d = ',' then collapseCommas (d :: t)
    else c :: collapseCommas (d :: t)

/-- Two uppercase ASCII letters at the head (`[A-Z]{2}`). -/
def uu2 : List Char → Bool
  | a :: b :: _ => a.isUpper && b.isUpper
  | _ => false

/-- Anchored test for `([^,]+),\s*([A-Z]{2})`: a non-comma character,
a comma, optional whitespace, two capitals. -/
def csHere : List Char → Bool
  | c :: ',' :: rest => (¬ c = ',') && uu2 (rest.dropWhile isWs)
  | _ => false

/-- `re.search(r'([^,]+),\s*([A-Z]{2})', s)` succeeds somewhere. -/
def hasCityState : List Char → Bool
  | [] => false
  | c :: t => csHere (c :: t) || hasCityState t

/-- `get_coordinates(address)`.  The external Nominatim responses are
oracles: `geoFull` is the response for the cleaned full address,
`geoCityState` the response for the city/state retry; `none` covers
"not found" as well as the caught timeout/service errors (the code
treats them identically).  Returns the `(lat, lon)` pair, `(None, None)`
when nothing was found. -/
def get_coordinates (geoFull geoCityState : Option (Rat × Rat))
    (address : String) : Option Rat × Option Rat :=
  let clean := pyStrip (collapseCommas address.data)
  match geoFull with
  | some c => (some c.1, some c.2)
  | none =>
    if hasCityState clean then
      match geoCityState with
      | some c => (some c.1, some c.2)
      | none => (none, none)
    else (none, none)

/-! ### The listing page model (`get_centurycommunities_page.py`,
`fetch_page` and its sub-traversals)

`extract_homeplans` and the quick-move-in loop both run
`find_all('li', class_='floor_plan_contain card quick-move-in-card')`,
so a single `Card` structure feeds both.  Each field is the text of one
sub-element lookup; `none` means the element is absent. -/

/-- A named floor-plan image collected by `get_floorplan_images`
(external navigation, carried as an oracle on the card). -/
structure FloorplanImage where
  name : String
  image_url : String
deriving DecidableEq, Inhabited

/-- One `li.floor_plan_contain.card.quick-move-in-card` element. -/
structure Card where
  /-- `h3.street-number` text. -/
  streetText : Option String
  /-- `span.title` text. -/
  titleText : Option String
  /-- `span.price` text. -/
  priceText : Option String
  /-- text of the span following `img[alt=Bedrooms]`. -/
  bedsText : Option String
  /-- text of the span following `img[alt=Bathrooms]`. -/
  bathsText : Option String
  /-- text of the span following `img[alt='Square Footage']`. -/
  sqftText : Option String
  /-- `img.js-img`: `none` = element absent, `some none` = no `src`
  attribute, `some (some s)` = `src` is `s`. -/
  jsImg : Option (Option String)
  /-- `a.btn.btn-primary`: `none` = element absent, `some none` =
  element without `href` (a `KeyError` wherever `['href']` is read),
  `some (some h)` = `href` is `h`. -/
  btnHref : Option (Option String)
  /-- texts of the `custom-flag1-icon`/`custom-flag2-icon` divs. -/
  flags : List String
  /-- oracle: what `get_homesite_images(driver, url)` returns for this
  card's detail page (at most 12 carousel images). -/
  detailImages : List String
  /-- oracle: what `get_floorplan_images(driver, url)` returns for this
  card's detail page. -/
  floorplanImages : List FloorplanImage
deriving DecidableEq, Inhabited

structure HomeplanDetails where
  price : String
  beds : String
  baths : String
  sqft : String
  status : String
  image_url : String
deriving DecidableEq, Inhabited

structure Homeplan where
  name : String
  url : String
  details : HomeplanDetails
  floorplan_images : List FloorplanImage
deriving DecidableEq, Inhabited

structure Homesite where
  name : Option String
  plan : Option String
  id : Option String
  address : Option String
  price : Option String
  beds : Option String
  baths : Option String
  sqft : Option String
  status : String
  image_url : Option String
  url : Option String
  latitude : Option Rat
  longitude : Option Rat
  overview : Option String
  images : List String
deriving DecidableEq, Inhabited

structure Details where
  price_range : Option String
  sqft_range : Option String
  bed_range : Option String
  bath_range : Option String
  stories_range : Option String
deriving DecidableEq, Inhabited

structure Record where
  name : Option String
  url : String
  price_from : Option String
  address : Option String
  city : Option String
  state : Option String
  market : Option String
  latitude : Option Rat
  longitude : Option Rat
  description : Option String
  details : Details
  homeplans : List Homeplan
  homesites : List Homesite
deriving DecidableEq, Inhabited

/-- The rendered listing page, one optional field per element lookup
`fetch_page` performs.  Geocoder responses are oracles as in
`get_coordinates`. -/
structure Page where
  /-- `soup.find('div', class_='community_listing_details')` then
  `.find('h1')`: `none` = div absent (an `AttributeError`),
  `some none` = no `h1`, `some (some t)` = `h1` text `t`. -/
  nameH1 : Option (Option String)
  /-- first `span.price` text anywhere on the page. -/
  priceText : Option String
  /-- `p.community-page-address` text. -/
  addressText : Option String
  /-- first embedded script whose content matches both the latitude and
  longitude regexes, already parsed. -/
  scriptCoords : Option (Rat × Rat)
  /-- `div[data-lat][data-lng]` attributes, parsed. -/
  mapCoords : Option (Rat × Rat)
  /-- geocoder oracle for the full address. -/
  geoFull : Option (Rat × Rat)
  /-- geocoder oracle for the city/state retry. -/
  geoCityState : Option (Rat × Rat)
  /-- first `p` of `section.overview-communities-block`. -/
  overviewP : Option String
  /-- first `p` of `div.community-description`. -/
  descP : Option String
  /-- the floor-plan / quick-move-in cards, in document order. -/
  cards : List Card
deriving DecidableEq, Inhabited

/-! #### extract_homeplans -/

/-- `extract_homeplans` with the `seen_models` accumulator.  Any absent
sub-element raises (`AttributeError`/`KeyError`/`TypeError`) and aborts
the whole extraction — the code does no per-field guarding here.  A card
whose model name was already seen is skipped before any other field is
touched. -/
def extractHomeplansGo (seen : List String) : List Card → Except Unit (List Homeplan)
  | [] => .ok []
  | c :: cs =>
    match c.titleText with
    | none => .error ()
    | some t =>
      let name := pyStripS t
      if name ∈ seen then extractHomeplansGo seen cs
      else
        match c.btnHref with
        | none => .error ()
        | some none => .error ()
        | some (some h) =>
          let url := normUrl h
          match c.priceText, c.bedsText, c.bathsText, c.sqftText, c.jsImg with
          | some pr, some bd, some ba, some sq, some src =>
            let img0 := src.getD ""
            let img := if img0 = "" then img0 else normUrl img0
            (extractHomeplansGo (name :: seen) cs).map
              (fun rest =>
                { name := name, url := url,
                  details :=
                    { price := pyStripS pr, beds := pyStripS bd,
                      baths := pyStripS ba, sqft := pyStripS sq,
                      status := "Actively selling", image_url := img },
                  floorplan_images := c.floorplanImages } :: rest)
          | _, _, _, _, _ => .error ()

def extract_homeplans (cards : List Card) : Except Unit (List Homeplan) :=
  extractHomeplansGo [] cards

/-! #### The quick-move-in homesite loop -/

/-- `full_address = address_elem.text.strip().split('|')[0].strip()`. -/
def streetName (t : String) : String :=
  pyStripS (String.mk ((pyStripS t).data.takeWhile (fun c => ¬ c = '|')))

/-- `(homesite["address"], homesite["name"])` from the street element. -/
def hsAddressName (c : Card) : Option String × Option String :=
  match c.streetText with
  | some t => (some (streetName t ++ ", McDonough, GA"), some (streetName t))
  | none => (none, none)

/-- `text.strip().split()[0]`: the first whitespace-separated token, an
`IndexError` when the text is blank. -/
def specNum (t : String) : Except Unit String :=
  match pySplitWs (pyStrip t.data) with
  | [] => .error ()
  | w :: _ => .ok (String.mk w)

/-- beds: store the token, accumulate `int(token)`. -/
def hsBeds (c : Card) : Except Unit (Option String × List Int) :=
  match c.bedsText with
  | none => .ok (none, [])
  | some t =>
    (specNum t).bind fun n =>
      match pyInt n.data with
      | some v => .ok (some n, [v])
      | none => .error ()

/-- baths: store the token, accumulate `float(token)`. -/
def hsBaths (c : Card) : Except Unit (Option String × List Rat) :=
  match c.bathsText with
  | none => .ok (none, [])
  | some t =>
    (specNum t).bind fun n =>
      match pyFloat n.data with
      | some v => .ok (some n, [v])
      | none => .error ()

/-- sqft: store the comma-stripped token, accumulate `int` of it. -/
def hsSqft (c : Card) : Except Unit (Option String × List Int) :=
  match c.sqftText with
  | none => .ok (none, [])
  | some t =>
    (specNum t).bind fun n0 =>
      let n := String.mk (n0.data.filter (fun c => ¬ c = ','))
      match pyInt n.data with
      | some v => .ok (some n, [v])
      | none => .error ()

/-- the card image: requires the element and a truthy `src`. -/
def hsImage (c : Card) : Option String :=
  match c.jsImg with
  | some (some s) => if s = "" then none else some (normUrl s)
  | _ => none

/-- the "View Details" link handling: returns the updated `url`
variable, the homesite's own url field, and the image list (the detail
page's carousel when a link exists, the card image otherwise).  A link
element without `href` raises `KeyError`. -/
def hsLink (c : Card) (curUrl : String) (baseImages : List String) :
    Except Unit (String × Option String × List String) :=
  match c.btnHref with
  | none => .ok (curUrl, none, baseImages)
  | some none => .error ()
  | some (some h) =>
    let u := normUrl h
    .ok (u, some u, c.detailImages)

/-- `url.split('/')[-2].split('---')[0]`, `none` when the url has no
`'/'` (where Python raises `IndexError`). -/
def lotIdOf (u : String) : Option String :=
  match (pySplitChar '/' u.data).reverse with
  | _ :: seg :: _ => some (String.mk (beforeSep ['-', '-', '-'] seg))
  | _ => none

/-- the `if url:` id extraction — operating on whatever `url` currently
holds, whether or not this card supplied it. -/
def hsId (u : String) : Except Unit (Option String) :=
  if u = "" then .ok none
  else
    match lotIdOf u with
    | some v => .ok (some v)
    | none => .error ()

/-- `' '.join(flag.text.strip() for flag in flags)` when flags exist. -/
def overviewOf (c : Card) : Option String :=
  if c.flags = [] then none
  else some (String.intercalate " " (c.flags.map pyStripS))

/-- State threaded through the quick-move-in loop.  `curUrl` is the
Python local `url`, which starts as the `fetch_page` argument and is
only reassigned by cards that carry a details link. -/
structure QmiState where
  curUrl : String
  sqftVals : List Int
  bedVals : List Int
  bathVals : List Rat
  sites : List Homesite
deriving DecidableEq, Inhabited

def imagesOf (c : Card) : List String :=
  match hsImage c with
  | some u => [u]
  | none => []

/-- One iteration of the quick-move-in loop. -/
def qmiStep (loc : Option Rat × Option Rat) (st : QmiState) (c : Card) :
    Except Unit QmiState :=
  (hsBeds c).bind fun pb =>
  (hsBaths c).bind fun pba =>
  (hsSqft c).bind fun psq =>
  (hsLink c st.curUrl (imagesOf c)).bind fun pl =>
  (hsId pl.1).map fun idv =>
    { curUrl := pl.1,
      sqftVals := st.sqftVals ++ psq.2,
      bedVals := st.bedVals ++ pb.2,
      bathVals := st.bathVals ++ pba.2,
      sites := st.sites ++
        [{ name := (hsAddressName c).2,
           plan := c.titleText.map pyStripS,
           id := idv,
           address := (hsAddressName c).1,
           price := c.priceText.map pyStripS,
           beds := pb.1, baths := pba.1, sqft := psq.1,
           status := "Move-in Ready",
           image_url := hsImage c,
           url := pl.2.1,
           latitude := loc.1, longitude := loc.2,
           overview := overviewOf c,
           images := pl.2.2 }] }

def qmiRun (loc : Option Rat × Option Rat) (st : QmiState) :
    List Card → Except Unit QmiState
  | [] => .ok st
  | c :: cs => (qmiStep loc st c).bind fun st2 => qmiRun loc st2 cs

/-! #### fetch_page's sequential stages -/

/-- `community_name = url.split('/')[-2]` (line 264): an `IndexError`
for a URL without `'/'`. -/
def communityName (url : String) : Except Unit String :=
  match (pySplitChar '/' url.data).reverse with
  | _ :: seg :: _ => .ok (String.mk seg)
  | _ => .error ()

/-- Community name: first non-blank stripped line of the `h1`.  A
missing `community_listing_details` div raises; an `h1` whose lines are
all blank raises `IndexError` on `name_parts[0]`. -/
def nameStage (p : Page) : Except Unit (Option String) :=
  match p.nameH1 with
  | none => .error ()
  | some none => .ok none
  | some (some t) =>
    match cleanLines t with
    | [] => .error ()
    | x :: _ => .ok (some x)

/-- `price_from` (and the identical `details.price_range`). -/
def priceStage (p : Page) : Option String :=
  match p.priceText with
  | none => none
  | some t =>
    match extract_price (pyStripS t) with
    | some pr => some ("From " ++ pr)
    | none => none

/-- city/state/market from the address parts (lines 342-349): requires
at least two parts and a comma in the last one; the market is then the
hardcoded "Atlanta Metro". -/
def cityStateMarket (parts : List String) :
    Option String × Option String × Option String :=
  match parts.reverse with
  | [] => (none, none, none)
  | [_] => (none, none, none)
  | last :: _ :: _ =>
    match pySplitChar ',' last.data with
    | c1 :: c2 :: _ =>
      (some (String.mk (pyStrip c1)),
       (match pySplitWs (pyStrip c2) with
        | [] => none
        | w :: _ => some (String.mk w)),
       some "Atlanta Metro")
    | _ => (none, none, none)

/-- Python truthiness of an optional float: `None` and `0.0` are
falsy. -/
def pyTruthy (x : Option Rat) : Bool :=
  match x with
  | some v => v != 0
  | none => false

/-- The coordinate fallback chain (lines 351-385): embedded script,
then map element, then geocoding — the last guarded by `if lat and
lon`. -/
def resolveCoords (p : Page) (addr : String) : Option Rat × Option Rat :=
  match p.scriptCoords with
  | some c => (some c.1, some c.2)
  | none =>
    match p.mapCoords with
    | some c => (some c.1, some c.2)
    | none =>
      let g := get_coordinates p.geoFull p.geoCityState addr
      if pyTruthy g.1 && pyTruthy g.2 then g else (none, none)

structure AddrInfo where
  address : Option String
  city : Option String
  state : Option String
  market : Option String
  latitude : Option Rat
  longitude : Option Rat
deriving DecidableEq, Inhabited

/-- The whole `if address_elem:` block: joined address string, parsed
city/state/market, and coordinate resolution (which only runs when the
address element exists). -/
def addressStage (p : Page) : AddrInfo :=
  match p.addressText with
  | none => ⟨none, none, none, none, none, none⟩
  | some t =>
    let parts := cleanLines t
    let addr := String.intercalate ", " parts
    let csm := cityStateMarket parts
    let co := resolveCoords p addr
    ⟨some addr, csm.1, csm.2.1, csm.2.2, co.1, co.2⟩

/-- Description with the overview-section/description-section fallback;
the fallback also fires when the overview text normalizes to the falsy
`""`. -/
def descStage (p : Page) : Option String :=
  let d0 := p.overviewP.map pyNormWs
  if d0.getD "" = "" then
    match p.descP with
    | some t => some (pyNormWs t)
    | none => d0
  else d0

def mkRecord (url : String) (p : Page) (nm : Option String)
    (hps : List Homeplan) (st : QmiState) : Record :=
  let a := addressStage p
  { name := nm, url := url, price_from := priceStage p,
    address := a.address, city := a.city, state := a.state,
    market := a.market, latitude := a.latitude, longitude := a.longitude,
    description := descStage p,
    details :=
      { price_range := priceStage p,
        sqft_range := sqftRange st.sqftVals,
        bed_range := bedRange st.bedVals,
        bath_range := bathRange st.bathVals,
        stories_range := storiesRange st.sqftVals },
    homeplans := hps, homesites := st.sites }

/-- `fetch_page` up to its outer `try`: the stages in source order; any
raised exception propagates. -/
def fetchPageE (url : String) (p : Page) : Except Unit Record :=
  (communityName url).bind fun _ =>
  (nameStage p).bind fun nm =>
  (extract_homeplans p.cards).bind fun hps =>
  (qmiRun ((addressStage p).latitude, (addressStage p).longitude)
      ⟨url, [], [], [], []⟩ p.cards).map fun st =>
  mkRecord url p nm hps st

/-- `fetch_page`: the outer `except` catches everything and returns
`None`. -/
def fetch_page (url : String) (p : Page) : Option Record :=
  (fetchPageE url p).toOption

/-- The card-determined fields of a homesite produced by one iteration
of the quick-move-in loop (everything except the stale-`url` dependent
parts, which are only pinned down for cards carrying their own details
link). -/
def HomesiteFromCard (loc : Option Rat × Option Rat) (c : Card) (s : Homesite) : Prop :=
  s.name = (hsAddressName c).2 ∧
  s.plan = c.titleText.map pyStripS ∧
  s.address = (hsAddressName c).1 ∧
  s.price = c.priceText.map pyStripS ∧
  s.latitude = loc.1 ∧ s.longitude = loc.2 ∧
  s.status = "Move-in Ready" ∧
  s.overview = overviewOf c ∧
  (∀ h, c.btnHref = some (some h) →
    s.url = some (normUrl h) ∧ ∃ v, lotIdOf (normUrl h) = some v ∧ s.id = some v) ∧
  (c.bedsText = none → s.beds = none) ∧
  (c.bathsText = none → s.baths = none) ∧
  (c.sqftText = none → s.sqft = none) ∧
  (c.jsImg = none → s.image_url = none) ∧
  (c.btnHref = none → s.url = none)

/-- A card element whose absence makes one of `extract_homeplans`'
unguarded lookups raise (lines 181-193): the "View Details" anchor
(or an anchor without `href`), the price span, the beds/baths/sqft
spans, or the `js-img` element.  The title span is treated separately
because its lookup (line 174) runs before the name dedup. -/
def MissingHomeplanField (c : Card) : Prop :=
  c.btnHref = none ∨ c.btnHref = some none ∨ c.priceText = none ∨
  c.bedsText = none ∨ c.bathsText = none ∨ c.sqftText = none ∨ c.jsImg = none

/-- Remove exactly the card elements that `extract_homeplans` never
reads: the street element and the promotional flags. -/
def eraseStreetFlags (c : Card) : Card :=
  { c with streetText := none, flags := [] }

/-- The homesite fields derived from the street element and the flags. -/
def eraseSiteFields (s : Homesite) : Homesite :=
  { s with name := none, address := none, overview := none }

def stErase (st : QmiState) : QmiState :=
  { st with sites := st.sites.map eraseSiteFields }

/-! ### Concrete pages used to evaluate the model

These model small rendered listing pages: a fully populated card, pages
with one element removed, and the two-card pages exercising the
homeplan name dedup and the stale-`url` id parsing. -/

def sampleUrl : String :=
  "https://www.centurycommunities.com/find-your-new-home/georgia/atlanta-metro/mcdonough2/oakhurst-manor/"

/-- A fully populated quick-move-in / floor-plan card. -/
def sampleCard : Card :=
  { streetText := some " 240 Azalea Dr | Lot 12 "
    titleText := some " Aspen "
    priceText := some " $350,990 "
    bedsText := some " 4 "
    bathsText := some " 3.5 "
    sqftText := some " 1,950 "
    jsImg := some (some "/img/a.jpg")
    btnHref := some (some "/find/ga/lot1---z/")
    flags := ["New!", " Model Home "]
    detailImages := ["https://img.example/1.jpg"]
    floorplanImages := [⟨"First Floor Floorplan", "https://img.example/fp.jpg"⟩] }

/-- A rendered page with every lookup populated and one card. -/
def samplePage : Page :=
  { nameH1 := some (some "\n  Oakhurst Manor \n by Century Communities \n")
    priceText := some "Starting at $312,990"
    addressText := some " 100 Oakhurst Way \n McDonough, GA 30253 "
    scriptCoords := none
    mapCoords := none
    geoFull := some (33, -84)
    geoCityState := none
    overviewP := some " A lovely community. "
    descP := none
    cards := [sampleCard] }

/-- A page whose single homeplan card is missing its `span.price`. -/
def missingPricePage : Page :=
  { samplePage with cards := [{ sampleCard with priceText := none }] }

/-- Another page with a price-less card (and no beds element either). -/
def witnessPricePage : Page :=
  { samplePage with cards := [{ sampleCard with priceText := none, bedsText := none }] }

/-- A page whose card has no `h3.street-number` and no flags. -/
def missingStreetPage : Page :=
  { samplePage with cards := [{ sampleCard with streetText := none, flags := [] }] }

/-- A second card with the same model name as `sampleCard` but no
details link of its own. -/
def linklessCard : Card :=
  { sampleCard with
    btnHref := none
    streetText := some "244 Azalea Dr"
    bedsText := none
    bathsText := none
    sqftText := some "2,100" }

/-- Two cards: the second shares the first's model name and has no
"View Details" link. -/
def staleUrlPage : Page :=
  { samplePage with cards := [sampleCard, linklessCard] }

/-- The spec's end-to-end fixture: two floor-plan cards with the same
model name, of which only the first carries specs (one move-in-ready
home with sqft 1950). -/
def dupNameCard : Card :=
  { sampleCard with
    btnHref := none
    streetText := some "260 Azalea Dr"
    bedsText := none
    bathsText := none
    sqftText := none }

def fixturePage : Page :=
  { samplePage with cards := [sampleCard, dupNameCard] }

/-- Geocoding returns latitude exactly 0.0. -/
def zeroLatPage : Page :=
  { samplePage with geoFull := some (0, -84) }

/-- A card that repeats `sampleCard`'s model name and carries nothing
else: every guarded quick-move-in lookup misses, and the homeplan pass
skips it before any unguarded lookup. -/
def bareDupCard : Card :=
  { streetText := none
    titleText := some " Aspen "
    priceText := none
    bedsText := none
    bathsText := none
    sqftText := none
    jsImg := none
    btnHref := none
    flags := []
    detailImages := []
    floorplanImages := [] }

def dedupMissingPage : Page :=
  { samplePage with cards := [sampleCard, bareDupCard] }

def sampleRecord : Record := (fetch_page sampleUrl samplePage).getD default

def staleRecord : Record := (fetch_page sampleUrl staleUrlPage).getD default

def zeroLatRecord : Record := (fetch_page sampleUrl zeroLatPage).getD default

/-! ## Proof layer -/

/-! ### Character classes -/

theorem isWs_not_isDC {c : Char} (h : isWs c = true) : isDC c = false := by
  simp only [isWs, Bool.or_eq_true, decide_eq_true_eq] at h
  rcases h with ((((h | h) | h) | h) | h) | h <;> subst h <;> decide

theorem isWs_not_digit {c : Char} (h : isWs c = true) : c.isDigit = false := by
  have h2 := isWs_not_isDC h
  simp only [isDC, Bool.or_eq_false_iff] at h2
  exact h2.1

theorem isDigit_isDC {c : Char} (h : c.isDigit = true) : isDC c = true := by
  simp [isDC, h]

/-! ### takeWhile / dropWhile on decomposed lists -/

theorem takeWhile_all_append (p : Char → Bool) (g t : List Char)
    (hg : ∀ c ∈ g, p c = true) (ht : ∀ c t2, t = c :: t2 → p c = false) :
    (g ++ t).takeWhile p = g := by
  induction g with
  | nil =>
    simp only [List.nil_append]
    cases t with
    | nil => rfl
    | cons c t2 => simp [List.takeWhile, ht c t2 rfl]
  | cons a g ih =>
    have ha : p a = true := hg a (List.mem_cons_self a g)
    simp only [List.cons_append, List.takeWhile, ha]
    simp only [List.cons.injEq, true_and]
    exact ih (fun c hc => hg c (List.mem_cons_of_mem a hc))

theorem dropWhile_all_append (p : Char → Bool) (g t : List Char)
    (hg : ∀ c ∈ g, p c = true) (ht : ∀ c t2, t = c :: t2 → p c = false) :
    (g ++ t).dropWhile p = t := by
  induction g with
  | nil =>
    simp only [List.nil_append]
    cases t with
    | nil => rfl
    | cons c t2 => simp [List.dropWhile, ht c t2 rfl]
  | cons a g ih =>
    have ha : p a = true := hg a (List.mem_cons_self a g)
    simp only [List.cons_append, List.dropWhile, ha]
    exact ih (fun c hc => hg c (List.mem_cons_of_mem a hc))

theorem takeWhile_cons_ne_nil (p : Char → Bool) (c : Char) (t : List Char)
    (hc : p c = true) : (c :: t).takeWhile p ≠ [] := by
  simp [List.takeWhile, hc]

theorem dropWhile_head_false (p : Char → Bool) :
    ∀ (l : List Char) (c : Char) (t : List Char),
      l.dropWhile p = c :: t → p c = false := by
  intro l
  induction l with
  | nil => intro c t h; simp [List.dropWhile] at h
  | cons a l ih =>
    intro c t h
    by_cases ha : p a = true
    · rw [List.dropWhile_cons_of_pos ha] at h
      exact ih c t h
    · rw [List.dropWhile_cons_of_neg ha] at h
      cases h
      simpa using ha

/-! ### `searchWith` (re.search) -/

theorem searchWith_some_suffix {f : List Char → Option (List Char)}
    {l g : List Char} (h : searchWith f l = some g) :
    ∃ l2, l2 <:+ l ∧ l2 ≠ [] ∧ f l2 = some g := by
  induction l with
  | nil => simp [searchWith] at h
  | cons c t ih =>
    rw [searchWith] at h
    cases hf : f (c :: t) with
    | some g2 =>
      rw [hf] at h
      cases h
      exact ⟨c :: t, List.suffix_refl _, by simp, hf⟩
    | none =>
      rw [hf] at h
      obtain ⟨l2, hsuf, hne, hfl⟩ := ih h
      exact ⟨l2, hsuf.trans (List.suffix_cons c t), hne, hfl⟩

theorem searchWith_ne_none {f : List Char → Option (List Char)}
    {l l2 g : List Char} (hsuf : l2 <:+ l) (hne : l2 ≠ [])
    (hf : f l2 = some g) : searchWith f l ≠ none := by
  induction l with
  | nil =>
    rcases hsuf with ⟨w, hw⟩
    rcases List.append_eq_nil.mp hw with ⟨_, h2⟩
    exact absurd h2 hne
  | cons c t ih =>
    rw [searchWith]
    rcases List.suffix_cons_iff.mp hsuf with heq | hsuf2
    · subst heq
      rw [hf]
      simp
    · cases hfc : f (c :: t) with
      | some g2 => simp
      | none => exact ih hsuf2

theorem searchWith_append_skip {f : List Char → Option (List Char)}
    (p rest : List Char)
    (h : ∀ p2, p2 ≠ [] → p2 <:+ p → f (p2 ++ rest) = none) :
    searchWith f (p ++ rest) = searchWith f rest := by
  induction p with
  | nil => simp
  | cons c p ih =>
    rw [List.cons_append, searchWith]
    have hc : f ((c :: p) ++ rest) = none :=
      h (c :: p) (by simp) (List.suffix_refl _)
    rw [List.cons_append] at hc
    rw [hc]
    exact ih (fun p2 hne hsuf => h p2 hne (hsuf.trans (List.suffix_cons c p)))

/-! ### extract_price vs PriceOcc -/

theorem priceMatchFrom_some {l g : List Char} (h : priceMatchFrom l = some g) :
    ∃ t, l = '$' :: t ∧ t.takeWhile isDC ≠ [] ∧ g = '$' :: t.takeWhile isDC := by
  match l with
  | [] => simp [priceMatchFrom] at h
  | c :: t =>
    simp only [priceMatchFrom] at h
    by_cases hc : c = '$'
    · rw [if_pos hc] at h
      by_cases hg : t.takeWhile isDC = []
      · simp [hg] at h
      · rw [if_neg hg] at h
        cases h
        exact ⟨t, by rw [hc], hg, rfl⟩
    · rw [if_neg hc] at h
      cases h

theorem priceMatchFrom_dollar {t : List Char} (h : t.takeWhile isDC ≠ []) :
    priceMatchFrom ('$' :: t) = some ('$' :: t.takeWhile isDC) := by
  simp [priceMatchFrom, h]

theorem priceMatchFrom_not_dollar {c : Char} (t : List Char) (hc : ¬ c = '$') :
    priceMatchFrom (c :: t) = none := by
  simp [priceMatchFrom, hc]

theorem PriceOcc_of_match {l2 g : List Char} (h : priceMatchFrom l2 = some g)
    {l : List Char} (hsuf : l2 <:+ l) : PriceOcc l := by
  obtain ⟨t, hl2, hne, _⟩ := priceMatchFrom_some h
  obtain ⟨p, hp⟩ := hsuf
  refine ⟨p, t.takeWhile isDC, t.dropWhile isDC, ?_, hne, ?_⟩
  · rw [← hp, hl2, List.takeWhile_append_dropWhile]
  · exact fun c hc => List.mem_takeWhile_imp hc

theorem match_of_PriceOcc {l : List Char} (h : PriceOcc l) :
    ∃ l2 g, l2 <:+ l ∧ l2 ≠ [] ∧ priceMatchFrom l2 = some g := by
  obtain ⟨p, g, r, hl, hne, hdc⟩ := h
  obtain ⟨c, g2, rfl⟩ := List.exists_cons_of_ne_nil hne
  have hc : isDC c = true := hdc c (List.mem_cons_self c g2)
  refine ⟨'$' :: ((c :: g2) ++ r), _, ⟨p, hl.symm⟩, by simp,
    priceMatchFrom_dollar ?_⟩
  simpa using takeWhile_cons_ne_nil isDC c (g2 ++ r) hc

theorem extract_price_eq_none_iff (s : String) :
    extract_price s = none ↔ ¬ PriceOcc s.data := by
  constructor
  · intro h hocc
    obtain ⟨l2, g, hsuf, hne, hm⟩ := match_of_PriceOcc hocc
    have h2 : searchWith priceMatchFrom s.data = none := by
      unfold extract_price at h
      cases hs : searchWith priceMatchFrom s.data with
      | none => rfl
      | some g2 => rw [hs] at h; simp at h
    exact searchWith_ne_none hsuf hne hm h2
  · intro hocc
    unfold extract_price
    cases hs : searchWith priceMatchFrom s.data with
    | none => rfl
    | some g =>
      obtain ⟨l2, hsuf, _, hm⟩ := searchWith_some_suffix hs
      exact absurd (PriceOcc_of_match hm hsuf) hocc

theorem extract_price_leftmost (s : String) (p g r : List Char)
    (hdata : s.data = p ++ '$' :: (g ++ r))
    (hp : ∀ c ∈ p, c ≠ '$') (hg : g ≠ []) (hdc : dcAll g) :
    extract_price s = some (String.mk ('$' :: (g ++ r).takeWhile isDC)) := by
  unfold extract_price
  rw [hdata]
  have hskip : searchWith priceMatchFrom (p ++ '$' :: (g ++ r)) =
      searchWith priceMatchFrom ('$' :: (g ++ r)) := by
    apply searchWith_append_skip
    intro p2 hne hsuf
    obtain ⟨c, p3, rfl⟩ := List.exists_cons_of_ne_nil hne
    have hcp : c ∈ p := by
      rcases hsuf with ⟨w, hw⟩
      rw [← hw]
      exact List.mem_append_right w (List.mem_cons_self c p3)
    rw [List.cons_append]
    exact priceMatchFrom_not_dollar _ (hp c hcp)
  rw [hskip, searchWith]
  obtain ⟨c, g2, rfl⟩ := List.exists_cons_of_ne_nil hg
  have hc : isDC c = true := hdc c (List.mem_cons_self c g2)
  rw [priceMatchFrom_dollar (by simpa using takeWhile_cons_ne_nil isDC c (g2 ++ r) hc)]
  simp

/-! ### extract_sqft vs SqftOcc -/

theorem head_cons_fails (p : Char → Bool) {c0 : Char} (hc0 : p c0 = false)
    (rest : List Char) :
    ∀ c t2, (c0 :: rest) = c :: t2 → p c = false := by
  intro c t2 h
  simp only [List.cons.injEq] at h
  rw [← h.1]
  exact hc0

theorem head_ws_append (p : Char → Bool) (hp : ∀ c, isWs c = true → p c = false)
    (w : List Char) (hw : wsAll w) (c0 : Char) (hc0 : p c0 = false)
    (rest : List Char) :
    ∀ c t2, (w ++ c0 :: rest) = c :: t2 → p c = false := by
  intro c t2 h
  cases w with
  | nil =>
    simp only [List.nil_append, List.cons.injEq] at h
    rw [← h.1]
    exact hc0
  | cons a w2 =>
    simp only [List.cons_append, List.cons.injEq] at h
    rw [← h.1]
    exact hp a (hw a (List.mem_cons_self a w2))

theorem wsFt_true {r : List Char} (h : wsFt r = true) :
    ∃ w2 r2, r = w2 ++ 'f' :: 't' :: r2 ∧ wsAll w2 := by
  unfold wsFt at h
  split at h
  · next r2 heq =>
    refine ⟨r.takeWhile isWs, r2, ?_, fun c hc => List.mem_takeWhile_imp hc⟩
    conv_lhs => rw [← List.takeWhile_append_dropWhile isWs r]
    rw [heq]
  · exact absurd h (by simp)

theorem wsFt_of (w2 r2 : List Char) (hw2 : wsAll w2) :
    wsFt (w2 ++ 'f' :: 't' :: r2) = true := by
  unfold wsFt
  rw [dropWhile_all_append isWs w2 ('f' :: 't' :: r2) hw2
    (head_cons_fails isWs (by decide) ('t' :: r2))]
  rfl

theorem sqftMatchFrom_head (g w m w2 r : List Char)
    (hg : g ≠ []) (hdc : dcAll g) (hw : wsAll w) (hm : SqftMid m) (hw2 : wsAll w2) :
    sqftMatchFrom (g ++ w ++ 's' :: 'q' :: (m ++ w2 ++ 'f' :: 't' :: r)) = some g := by
  have hsq : isDC 's' = false := by decide
  have hwdc : ∀ c, isWs c = true → isDC c = false := fun c => isWs_not_isDC
  have hhead : ∀ c t2, (w ++ 's' :: 'q' :: (m ++ w2 ++ 'f' :: 't' :: r)) = c :: t2 →
      isDC c = false :=
    head_ws_append isDC hwdc w hw 's' hsq _
  have htake : (g ++ (w ++ 's' :: 'q' :: (m ++ w2 ++ 'f' :: 't' :: r))).takeWhile isDC = g :=
    takeWhile_all_append isDC g _ hdc hhead
  have hdrop : (g ++ (w ++ 's' :: 'q' :: (m ++ w2 ++ 'f' :: 't' :: r))).dropWhile isDC =
      w ++ 's' :: 'q' :: (m ++ w2 ++ 'f' :: 't' :: r) :=
    dropWhile_all_append isDC g _ hdc hhead
  have hdropws : (w ++ 's' :: 'q' :: (m ++ w2 ++ 'f' :: 't' :: r)).dropWhile isWs =
      's' :: 'q' :: (m ++ w2 ++ 'f' :: 't' :: r) :=
    dropWhile_all_append isWs w _ hw
      (head_cons_fails isWs (by decide) _)
  have hafter : sqftAfterGroup (w ++ 's' :: 'q' :: (m ++ w2 ++ 'f' :: 't' :: r)) = true := by
    unfold sqftAfterGroup
    rw [hdropws]
    rcases hm with hm | hm | hm <;> subst hm
    · simp only [List.nil_append]
      rw [wsFt_of w2 r hw2]
      simp
    · simp only [List.cons_append, List.nil_append]
      rw [wsFt_of w2 r hw2]
      simp
    · simp only [List.cons_append, List.nil_append]
      rw [wsFt_of w2 r hw2]
      simp
  rw [← List.append_assoc] at htake hdrop
  unfold sqftMatchFrom
  rw [htake, hdrop, if_neg hg, hafter]
  simp

theorem sqftAfterGroup_true {u : List Char} (h : sqftAfterGroup u = true) :
    ∃ w m w2 r, u = w ++ 's' :: 'q' :: (m ++ w2 ++ 'f' :: 't' :: r) ∧
      wsAll w ∧ SqftMid m ∧ wsAll w2 := by
  unfold sqftAfterGroup at h
  split at h
  · next r0 heq =>
    have hwall : wsAll (u.takeWhile isWs) := fun c hc => List.mem_takeWhile_imp hc
    have hu : u = u.takeWhile isWs ++ 's' :: 'q' :: r0 := by
      conv_lhs => rw [← List.takeWhile_append_dropWhile isWs u]
      rw [heq]
    rcases Bool.or_eq_true _ _ |>.mp h with h2 | h3
    · rcases Bool.or_eq_true _ _ |>.mp h2 with h4 | h5
      · obtain ⟨w2, r2, hr0, hw2⟩ := wsFt_true h4
        rw [hr0] at hu
        refine ⟨u.takeWhile isWs, [], w2, r2, ?_, hwall, Or.inl rfl, hw2⟩
        conv_lhs => rw [hu]
        simp
      · split at h5
        · obtain ⟨w2, r3, hr2, hw2⟩ := wsFt_true h5
          rw [hr2] at hu
          refine ⟨u.takeWhile isWs, ['.'], w2, r3, ?_, hwall, Or.inr (Or.inl rfl), hw2⟩
          conv_lhs => rw [hu]
          simp
        · exact absurd h5 (by simp)
    · split at h3
      · obtain ⟨w2, r3, hr2, hw2⟩ := wsFt_true h3
        rw [hr2] at hu
        refine ⟨u.takeWhile isWs, ['u', 'a', 'r', 'e'], w2, r3, ?_, hwall,
          Or.inr (Or.inr rfl), hw2⟩
        conv_lhs => rw [hu]
        simp
      · exact absurd h3 (by simp)
  · exact absurd h (by simp)

theorem sqftMatchFrom_some {l g : List Char} (h : sqftMatchFrom l = some g) :
    ∃ w m w2 r, l = g ++ w ++ 's' :: 'q' :: (m ++ w2 ++ 'f' :: 't' :: r) ∧
      g ≠ [] ∧ dcAll g ∧ wsAll w ∧ SqftMid m ∧ wsAll w2 := by
  unfold sqftMatchFrom at h
  by_cases hg : l.takeWhile isDC = []
  · simp [hg] at h
  · rw [if_neg hg] at h
    by_cases hafter : sqftAfterGroup (l.dropWhile isDC) = true
    · rw [if_pos hafter] at h
      cases h
      have hdcg : dcAll (l.takeWhile isDC) := fun c hc => List.mem_takeWhile_imp hc
      obtain ⟨w, m, w2, r, hu, hwall, hm, hw2⟩ := sqftAfterGroup_true hafter
      have hl : l = l.takeWhile isDC ++ l.dropWhile isDC :=
        (List.takeWhile_append_dropWhile isDC l).symm
      rw [hu] at hl
      refine ⟨w, m, w2, r, ?_, hg, hdcg, hwall, hm, hw2⟩
      conv_lhs => rw [hl]
      simp
    · rw [if_neg hafter] at h
      cases h

theorem sqftMatchFrom_none_of_head {c : Char} (t : List Char) (hc : isDC c = false) :
    sqftMatchFrom (c :: t) = none := by
  unfold sqftMatchFrom
  rw [List.takeWhile_cons_of_neg (by simp [hc])]
  simp

theorem searchWith_head_some {f : List Char → Option (List Char)}
    {l g : List Char} (hne : l ≠ []) (h : f l = some g) :
    searchWith f l = some g := by
  obtain ⟨c, t, rfl⟩ := List.exists_cons_of_ne_nil hne
  rw [searchWith, h]

theorem SqftOcc_of_match {l2 g : List Char} (h : sqftMatchFrom l2 = some g)
    {l : List Char} (hsuf : l2 <:+ l) : SqftOcc l := by
  obtain ⟨w, m, w2, r, hl2, hg, hdc, hw, hm, hw2⟩ := sqftMatchFrom_some h
  obtain ⟨p, hp⟩ := hsuf
  exact ⟨p, g, w, m, w2, r, by rw [← hp, hl2]; simp, hg, hdc, hw, hm, hw2⟩

theorem match_of_SqftOcc {l : List Char} (h : SqftOcc l) :
    ∃ l2 g, l2 <:+ l ∧ l2 ≠ [] ∧ sqftMatchFrom l2 = some g := by
  obtain ⟨p, g, w, m, w2, r, hl, hg, hdc, hw, hm, hw2⟩ := h
  refine ⟨g ++ w ++ 's' :: 'q' :: (m ++ w2 ++ 'f' :: 't' :: r), g,
    ⟨p, by rw [hl]; simp⟩, ?_, sqftMatchFrom_head g w m w2 r hg hdc hw hm hw2⟩
  intro hnil
  rcases List.append_eq_nil.mp (List.append_eq_nil.mp hnil).1 with ⟨h1, _⟩
  exact hg h1

theorem extract_sqft_eq_none_iff (s : String) :
    extract_sqft s = none ↔ ¬ SqftOcc (lowerData s) := by
  constructor
  · intro h hocc
    obtain ⟨l2, g, hsuf, hne, hm⟩ := match_of_SqftOcc hocc
    have h2 : searchWith sqftMatchFrom (lowerData s) = none := by
      unfold extract_sqft at h
      cases hs : searchWith sqftMatchFrom (lowerData s) with
      | none => rfl
      | some g2 => rw [hs] at h; simp at h
    exact searchWith_ne_none hsuf hne hm h2
  · intro hocc
    unfold extract_sqft
    cases hs : searchWith sqftMatchFrom (lowerData s) with
    | none => rfl
    | some g =>
      obtain ⟨l2, hsuf, _, hmm⟩ := searchWith_some_suffix hs
      exact absurd (SqftOcc_of_match hmm hsuf) hocc

theorem extract_sqft_leftmost (s : String) (p g w m w2 r : List Char)
    (hdata : lowerData s = p ++ g ++ w ++ 's' :: 'q' :: (m ++ w2 ++ 'f' :: 't' :: r))
    (hp : ∀ c ∈ p, isDC c = false)
    (hg : g ≠ []) (hdc : dcAll g) (hw : wsAll w) (hm : SqftMid m) (hw2 : wsAll w2) :
    extract_sqft s = some (String.mk (g.filter (fun c => ¬ c = ','))) := by
  unfold extract_sqft
  have hdata2 : lowerData s =
      p ++ (g ++ w ++ 's' :: 'q' :: (m ++ w2 ++ 'f' :: 't' :: r)) := by
    rw [hdata]; simp
  rw [hdata2]
  have hskip : searchWith sqftMatchFrom
      (p ++ (g ++ w ++ 's' :: 'q' :: (m ++ w2 ++ 'f' :: 't' :: r))) =
      searchWith sqftMatchFrom (g ++ w ++ 's' :: 'q' :: (m ++ w2 ++ 'f' :: 't' :: r)) := by
    apply searchWith_append_skip
    intro p2 hne hsuf
    obtain ⟨c, p3, rfl⟩ := List.exists_cons_of_ne_nil hne
    have hcp : c ∈ p := by
      rcases hsuf with ⟨v, hv⟩
      rw [← hv]
      exact List.mem_append_right v (List.mem_cons_self c p3)
    rw [List.cons_append]
    exact sqftMatchFrom_none_of_head _ (hp c hcp)
  rw [hskip]
  rw [searchWith_head_some ?hne (sqftMatchFrom_head g w m w2 r hg hdc hw hm hw2)]
  case hne =>
    intro hnil
    rcases List.append_eq_nil.mp (List.append_eq_nil.mp hnil).1 with ⟨h1, _⟩
    exact hg h1
  rfl

/-! ### extract_beds_baths vs BedsOcc / BathsOcc -/

theorem isWs_not_eq {c : Char} (h : isWs c = true) (d : Char) (hd : isWs d = false) :
    ¬ c = d := by
  intro hcd
  rw [hcd] at h
  rw [h] at hd
  cases hd

theorem bedsTok_true {r : List Char} (h : bedsTok r = true) :
    ∃ w t r2, r = w ++ t ++ r2 ∧ wsAll w ∧ BedsTokHead t := by
  have hwall : wsAll (r.takeWhile isWs) := fun c hc => List.mem_takeWhile_imp hc
  have hr : r = r.takeWhile isWs ++ r.dropWhile isWs :=
    (List.takeWhile_append_dropWhile isWs r).symm
  unfold bedsTok at h
  split at h
  · next tail heq =>
    rw [heq] at hr
    refine ⟨r.takeWhile isWs, ['b', 'e', 'd'], tail, ?_, hwall, Or.inl rfl⟩
    conv_lhs => rw [hr]
    simp
  · next tail heq =>
    rw [heq] at hr
    refine ⟨r.takeWhile isWs, ['b', 'r'], tail, ?_, hwall, Or.inr rfl⟩
    conv_lhs => rw [hr]
    simp
  · exact absurd h (by simp)

theorem bedsTok_of (w t r2 : List Char) (hw : wsAll w) (ht : BedsTokHead t) :
    bedsTok (w ++ (t ++ r2)) = true := by
  rcases ht with h | h <;> subst h
  · show bedsTok (w ++ 'b' :: 'e' :: 'd' :: r2) = true
    unfold bedsTok
    rw [dropWhile_all_append isWs w ('b' :: 'e' :: 'd' :: r2) hw
      (head_cons_fails isWs (by decide) _)]
    rfl
  · show bedsTok (w ++ 'b' :: 'r' :: r2) = true
    unfold bedsTok
    rw [dropWhile_all_append isWs w ('b' :: 'r' :: r2) hw
      (head_cons_fails isWs (by decide) _)]
    rfl

theorem bedsMatchFrom_head (g w t r : List Char)
    (hg : g ≠ []) (hd : digitAll g) (hw : wsAll w) (ht : BedsTokHead t) :
    bedsMatchFrom (g ++ w ++ (t ++ r)) = some g := by
  have hb : ∀ c t2, (w ++ (t ++ r)) = c :: t2 → c.isDigit = false := by
    rcases ht with h | h <;> subst h
    · exact head_ws_append Char.isDigit (fun c => isWs_not_digit) w hw 'b' (by decide) _
    · exact head_ws_append Char.isDigit (fun c => isWs_not_digit) w hw 'b' (by decide) _
  have htake : (g ++ (w ++ (t ++ r))).takeWhile Char.isDigit = g :=
    takeWhile_all_append Char.isDigit g _ hd hb
  have hdrop : (g ++ (w ++ (t ++ r))).dropWhile Char.isDigit = w ++ (t ++ r) :=
    dropWhile_all_append Char.isDigit g _ hd hb
  rw [List.append_assoc]
  unfold bedsMatchFrom
  rw [htake, hdrop, if_neg hg, bedsTok_of w t r hw ht]
  simp

theorem bedsMatchFrom_some {l g : List Char} (h : bedsMatchFrom l = some g) :
    ∃ w t r, l = g ++ w ++ t ++ r ∧ g ≠ [] ∧ digitAll g ∧ wsAll w ∧ BedsTokHead t := by
  unfold bedsMatchFrom at h
  by_cases hg : l.takeWhile Char.isDigit = []
  · simp [hg] at h
  · rw [if_neg hg] at h
    by_cases htok : bedsTok (l.dropWhile Char.isDigit) = true
    · rw [if_pos htok] at h
      cases h
      obtain ⟨w, t, r, hu, hw, ht⟩ := bedsTok_true htok
      have hl : l = l.takeWhile Char.isDigit ++ l.dropWhile Char.isDigit :=
        (List.takeWhile_append_dropWhile Char.isDigit l).symm
      rw [hu] at hl
      refine ⟨w, t, r, ?_, hg, fun c hc => List.mem_takeWhile_imp hc, hw, ht⟩
      conv_lhs => rw [hl]
      simp
    · rw [if_neg htok] at h
      cases h

theorem bedsMatchFrom_none_of_head {c : Char} (t : List Char)
    (hc : c.isDigit = false) : bedsMatchFrom (c :: t) = none := by
  unfold bedsMatchFrom
  rw [List.takeWhile_cons_of_neg (by simp [hc])]
  simp

theorem BedsOcc_of_match {l2 g : List Char} (h : bedsMatchFrom l2 = some g)
    {l : List Char} (hsuf : l2 <:+ l) : BedsOcc l := by
  obtain ⟨w, t, r, hl2, hg, hd, hw, ht⟩ := bedsMatchFrom_some h
  obtain ⟨p, hp⟩ := hsuf
  exact ⟨p, g, w, t, r, by rw [← hp, hl2]; simp, hg, hd, hw, ht⟩

theorem match_of_BedsOcc {l : List Char} (h : BedsOcc l) :
    ∃ l2 g, l2 <:+ l ∧ l2 ≠ [] ∧ bedsMatchFrom l2 = some g := by
  obtain ⟨p, g, w, t, r, hl, hg, hd, hw, ht⟩ := h
  refine ⟨g ++ w ++ (t ++ r), g, ⟨p, by rw [hl]; simp⟩, ?_,
    bedsMatchFrom_head g w t r hg hd hw ht⟩
  intro hnil
  rcases List.append_eq_nil.mp (List.append_eq_nil.mp hnil).1 with ⟨h1, _⟩
  exact hg h1

theorem bedsPart_eq_none_iff (s : String) :
    bedsPart s = none ↔ ¬ BedsOcc (lowerData s) := by
  constructor
  · intro h hocc
    obtain ⟨l2, g, hsuf, hne, hm⟩ := match_of_BedsOcc hocc
    have h2 : searchWith bedsMatchFrom (lowerData s) = none := by
      unfold bedsPart at h
      cases hs : searchWith bedsMatchFrom (lowerData s) with
      | none => rfl
      | some g2 => rw [hs] at h; simp at h
    exact searchWith_ne_none hsuf hne hm h2
  · intro hocc
    unfold bedsPart
    cases hs : searchWith bedsMatchFrom (lowerData s) with
    | none => rfl
    | some g =>
      obtain ⟨l2, hsuf, _, hmm⟩ := searchWith_some_suffix hs
      exact absurd (BedsOcc_of_match hmm hsuf) hocc

theorem bedsPart_leftmost (s : String) (p g w t r : List Char)
    (hdata : lowerData s = p ++ g ++ w ++ t ++ r)
    (hp : ∀ c ∈ p, c.isDigit = false)
    (hg : g ≠ []) (hd : digitAll g) (hw : wsAll w) (ht : BedsTokHead t) :
    bedsPart s = some (String.mk g) := by
  unfold bedsPart
  have hdata2 : lowerData s = p ++ (g ++ w ++ (t ++ r)) := by
    rw [hdata]; simp
  rw [hdata2]
  have hskip : searchWith bedsMatchFrom (p ++ (g ++ w ++ (t ++ r))) =
      searchWith bedsMatchFrom (g ++ w ++ (t ++ r)) := by
    apply searchWith_append_skip
    intro p2 hne hsuf
    obtain ⟨c, p3, rfl⟩ := List.exists_cons_of_ne_nil hne
    have hcp : c ∈ p := by
      rcases hsuf with ⟨v, hv⟩
      rw [← hv]
      exact List.mem_append_right v (List.mem_cons_self c p3)
    rw [List.cons_append]
    exact bedsMatchFrom_none_of_head _ (hp c hcp)
  rw [hskip]
  rw [searchWith_head_some ?hne (bedsMatchFrom_head g w t r hg hd hw ht)]
  case hne =>
    intro hnil
    rcases List.append_eq_nil.mp (List.append_eq_nil.mp hnil).1 with ⟨h1, _⟩
    exact hg h1
  rfl

theorem bathsTok_true {r : List Char} (h : bathsTok r = true) :
    ∃ w r2, r = w ++ 'b' :: 'a' :: r2 ∧ wsAll w := by
  have hwall : wsAll (r.takeWhile isWs) := fun c hc => List.mem_takeWhile_imp hc
  have hr : r = r.takeWhile isWs ++ r.dropWhile isWs :=
    (List.takeWhile_append_dropWhile isWs r).symm
  unfold bathsTok at h
  split at h
  · next tail heq =>
    rw [heq] at hr
    exact ⟨r.takeWhile isWs, tail, hr, hwall⟩
  · exact absurd h (by simp)

theorem bathsTok_of (w r2 : List Char) (hw : wsAll w) :
    bathsTok (w ++ 'b' :: 'a' :: r2) = true := by
  unfold bathsTok
  rw [dropWhile_all_append isWs w ('b' :: 'a' :: r2) hw
    (head_cons_fails isWs (by decide) _)]
  rfl

theorem bathsMatchFrom_head (g w r : List Char)
    (hbg : BathGroup g) (hw : wsAll w) :
    bathsMatchFrom (g ++ w ++ 'b' :: 'a' :: r) = some g := by
  have hb : ∀ c t2, (w ++ 'b' :: 'a' :: r) = c :: t2 → c.isDigit = false :=
    head_ws_append Char.isDigit (fun c => isWs_not_digit) w hw 'b' (by decide) _
  rcases hbg with ⟨hg, hd⟩ | ⟨d, f, hgdf, hdne, hfne, hdd, hdf⟩
  · -- pure digit group
    have htake : (g ++ (w ++ 'b' :: 'a' :: r)).takeWhile Char.isDigit = g :=
      takeWhile_all_append Char.isDigit g _ hd hb
    have hdrop : (g ++ (w ++ 'b' :: 'a' :: r)).dropWhile Char.isDigit =
        w ++ 'b' :: 'a' :: r :=
      dropWhile_all_append Char.isDigit g _ hd hb
    rw [List.append_assoc]
    unfold bathsMatchFrom
    rw [htake, hdrop, if_neg hg]
    split
    · next r2 heq =>
      exfalso
      cases w with
      | nil =>
        simp only [List.nil_append, List.cons.injEq] at heq
        exact absurd heq.1 (by decide)
      | cons a w2 =>
        simp only [List.cons_append, List.cons.injEq] at heq
        exact isWs_not_eq (hw a (List.mem_cons_self a w2)) '.' (by decide) heq.1
    · next rr hne =>
      rw [bathsTok_of w r hw]
      simp
  · -- group with a decimal point
    subst hgdf
    have hshape : (d ++ '.' :: f) ++ w ++ 'b' :: 'a' :: r =
        d ++ '.' :: (f ++ (w ++ 'b' :: 'a' :: r)) := by simp
    rw [hshape]
    have hdot : ∀ c t2, ('.' :: (f ++ (w ++ 'b' :: 'a' :: r))) = c :: t2 →
        c.isDigit = false :=
      head_cons_fails Char.isDigit (by decide) _
    have htake : (d ++ '.' :: (f ++ (w ++ 'b' :: 'a' :: r))).takeWhile Char.isDigit = d :=
      takeWhile_all_append Char.isDigit d _ hdd hdot
    have hdrop : (d ++ '.' :: (f ++ (w ++ 'b' :: 'a' :: r))).dropWhile Char.isDigit =
        '.' :: (f ++ (w ++ 'b' :: 'a' :: r)) :=
      dropWhile_all_append Char.isDigit d _ hdd hdot
    have htakef : (f ++ (w ++ 'b' :: 'a' :: r)).takeWhile Char.isDigit = f :=
      takeWhile_all_append Char.isDigit f _ hdf hb
    have hdropf : (f ++ (w ++ 'b' :: 'a' :: r)).dropWhile Char.isDigit =
        w ++ 'b' :: 'a' :: r :=
      dropWhile_all_append Char.isDigit f _ hdf hb
    unfold bathsMatchFrom
    rw [htake, hdrop, if_neg hdne]
    simp only
    rw [htakef, hdropf, if_neg hfne, bathsTok_of w r hw]
    simp

theorem bathsMatchFrom_some {l g : List Char} (h : bathsMatchFrom l = some g) :
    ∃ w r, l = g ++ w ++ 'b' :: 'a' :: r ∧ BathGroup g ∧ wsAll w := by
  unfold bathsMatchFrom at h
  by_cases hd : l.takeWhile Char.isDigit = []
  · simp [hd] at h
  · rw [if_neg hd] at h
    have hddig : digitAll (l.takeWhile Char.isDigit) :=
      fun c hc => List.mem_takeWhile_imp hc
    have hl : l = l.takeWhile Char.isDigit ++ l.dropWhile Char.isDigit :=
      (List.takeWhile_append_dropWhile Char.isDigit l).symm
    split at h
    · next r2 heq =>
      by_cases hf : r2.takeWhile Char.isDigit = []
      · rw [if_pos hf] at h
        have hbt : bathsTok ('.' :: r2) = false := by
          unfold bathsTok
          rw [List.dropWhile_cons_of_neg (by decide)]
          rfl
        rw [hbt] at h
        simp at h
      · rw [if_neg hf] at h
        by_cases htok : bathsTok (r2.dropWhile Char.isDigit) = true
        · rw [if_pos htok] at h
          cases h
          obtain ⟨w, r3, hu, hw⟩ := bathsTok_true htok
          have hr2 : r2 = r2.takeWhile Char.isDigit ++ r2.dropWhile Char.isDigit :=
            (List.takeWhile_append_dropWhile Char.isDigit r2).symm
          rw [hu] at hr2
          rw [heq, hr2] at hl
          refine ⟨w, r3, ?_, Or.inr ⟨l.takeWhile Char.isDigit, r2.takeWhile Char.isDigit,
            rfl, hd, hf, hddig, fun c hc => List.mem_takeWhile_imp hc⟩, hw⟩
          conv_lhs => rw [hl]
          simp
        · rw [if_neg (by simpa using htok)] at h
          cases h
    · next rr hne =>
      by_cases htok : bathsTok (l.dropWhile Char.isDigit) = true
      · rw [if_pos htok] at h
        cases h
        obtain ⟨w, r3, hu, hw⟩ := bathsTok_true htok
        rw [hu] at hl
        refine ⟨w, r3, ?_, Or.inl ⟨hd, hddig⟩, hw⟩
        conv_lhs => rw [hl]
        simp
      · rw [if_neg (by simpa using htok)] at h
        cases h

theorem bathsMatchFrom_none_of_head {c : Char} (t : List Char)
    (hc : c.isDigit = false) : bathsMatchFrom (c :: t) = none := by
  unfold bathsMatchFrom
  rw [List.takeWhile_cons_of_neg (by simp [hc])]
  simp

theorem BathsOcc_of_match {l2 g : List Char} (h : bathsMatchFrom l2 = some g)
    {l : List Char} (hsuf : l2 <:+ l) : BathsOcc l := by
  obtain ⟨w, r, hl2, hbg, hw⟩ := bathsMatchFrom_some h
  obtain ⟨p, hp⟩ := hsuf
  exact ⟨p, g, w, r, by rw [← hp, hl2]; simp, hbg, hw⟩

theorem BathGroup_ne_nil {g : List Char} (h : BathGroup g) : g ≠ [] := by
  rcases h with ⟨hg, _⟩ | ⟨d, f, hgdf, hdne, _, _, _⟩
  · exact hg
  · intro hnil
    rw [hgdf] at hnil
    rcases List.append_eq_nil.mp hnil with ⟨h1, _⟩
    exact hdne h1

theorem match_of_BathsOcc {l : List Char} (h : BathsOcc l) :
    ∃ l2 g, l2 <:+ l ∧ l2 ≠ [] ∧ bathsMatchFrom l2 = some g := by
  obtain ⟨p, g, w, r, hl, hbg, hw⟩ := h
  refine ⟨g ++ w ++ 'b' :: 'a' :: r, g, ⟨p, by rw [hl]; simp⟩, ?_,
    bathsMatchFrom_head g w r hbg hw⟩
  intro hnil
  rcases List.append_eq_nil.mp (List.append_eq_nil.mp hnil).1 with ⟨h1, _⟩
  exact BathGroup_ne_nil hbg h1

theorem bathsPart_eq_none_iff (s : String) :
    bathsPart s = none ↔ ¬ BathsOcc (lowerData s) := by
  constructor
  · intro h hocc
    obtain ⟨l2, g, hsuf, hne, hm⟩ := match_of_BathsOcc hocc
    have h2 : searchWith bathsMatchFrom (lowerData s) = none := by
      unfold bathsPart at h
      cases hs : searchWith bathsMatchFrom (lowerData s) with
      | none => rfl
      | some g2 => rw [hs] at h; simp at h
    exact searchWith_ne_none hsuf hne hm h2
  · intro hocc
    unfold bathsPart
    cases hs : searchWith bathsMatchFrom (lowerData s) with
    | none => rfl
    | some g =>
      obtain ⟨l2, hsuf, _, hmm⟩ := searchWith_some_suffix hs
      exact absurd (BathsOcc_of_match hmm hsuf) hocc

theorem bathsPart_leftmost (s : String) (p g w r : List Char)
    (hdata : lowerData s = p ++ g ++ w ++ 'b' :: 'a' :: r)
    (hp : ∀ c ∈ p, c.isDigit = false)
    (hbg : BathGroup g) (hw : wsAll w) :
    bathsPart s = some (String.mk g) := by
  unfold bathsPart
  have hdata2 : lowerData s = p ++ (g ++ w ++ 'b' :: 'a' :: r) := by
    rw [hdata]; simp
  rw [hdata2]
  have hskip : searchWith bathsMatchFrom (p ++ (g ++ w ++ 'b' :: 'a' :: r)) =
      searchWith bathsMatchFrom (g ++ w ++ 'b' :: 'a' :: r) := by
    apply searchWith_append_skip
    intro p2 hne hsuf
    obtain ⟨c, p3, rfl⟩ := List.exists_cons_of_ne_nil hne
    have hcp : c ∈ p := by
      rcases hsuf with ⟨v, hv⟩
      rw [← hv]
      exact List.mem_append_right v (List.mem_cons_self c p3)
    rw [List.cons_append]
    exact bathsMatchFrom_none_of_head _ (hp c hcp)
  rw [hskip]
  rw [searchWith_head_some ?hne (bathsMatchFrom_head g w r hbg hw)]
  case hne =>
    intro hnil
    rcases List.append_eq_nil.mp (List.append_eq_nil.mp hnil).1 with ⟨h1, _⟩
    exact BathGroup_ne_nil hbg h1
  rfl

/-! ### Link discovery lemmas -/

theorem collectCards_cons_link {c : CCard} {h : String}
    (hc : c.titleHref = some (some h)) (acc : List String) (cs : List CCard) :
    collectCards acc (c :: cs) =
      if h = "" then collectCards acc cs
      else collectCards (if normUrl h ∈ acc then acc else acc ++ [normUrl h]) cs := by
  obtain ⟨th⟩ := c
  cases hc
  rfl

theorem collectCards_cons_skip {c : CCard}
    (hc : c.titleHref = none ∨ c.titleHref = some none)
    (acc : List String) (cs : List CCard) :
    collectCards acc (c :: cs) = collectCards acc cs := by
  obtain ⟨th⟩ := c
  rcases hc with hc | hc <;> cases hc <;> rfl

theorem collectCards_mem (cs : List CCard) : ∀ (acc : List String) (u : String),
    u ∈ collectCards acc cs ↔
      u ∈ acc ∨ ∃ c ∈ cs, ∃ h, c.titleHref = some (some h) ∧ h ≠ "" ∧ normUrl h = u := by
  induction cs with
  | nil => intro acc u; simp [collectCards]
  | cons c cs ih =>
    intro acc u
    have hcons : ∀ c2 h2, c2 ∈ cs → c2.titleHref = some (some h2) → h2 ≠ "" →
        normUrl h2 = u →
        (∃ c3 ∈ c :: cs, ∃ h3, c3.titleHref = some (some h3) ∧ h3 ≠ "" ∧ normUrl h3 = u) :=
      fun c2 h2 hm ht hn hu => ⟨c2, List.mem_cons_of_mem c hm, h2, ht, hn, hu⟩
    match hc : c.titleHref with
    | some (some h) =>
      rw [collectCards_cons_link hc]
      by_cases hh : h = ""
      · rw [if_pos hh, ih]
        constructor
        · rintro (ha | ⟨c2, hm, h2, ht, hn, hu⟩)
          · exact Or.inl ha
          · exact Or.inr (hcons c2 h2 hm ht hn hu)
        · rintro (ha | ⟨c2, hm, h2, ht, hn, hu⟩)
          · exact Or.inl ha
          · rcases List.mem_cons.mp hm with rfl | hm2
            · rw [hc] at ht
              simp only [Option.some.injEq] at ht
              rw [hh] at ht
              exact absurd ht.symm hn
            · exact Or.inr ⟨c2, hm2, h2, ht, hn, hu⟩
      · rw [if_neg hh, ih]
        have hacc : u ∈ (if normUrl h ∈ acc then acc else acc ++ [normUrl h]) ↔
            u ∈ acc ∨ u = normUrl h := by
          by_cases hin : normUrl h ∈ acc
          · rw [if_pos hin]
            constructor
            · exact Or.inl
            · rintro (ha | rfl)
              · exact ha
              · exact hin
          · rw [if_neg hin]
            simp [List.mem_append]
        rw [hacc]
        constructor
        · rintro ((ha | rfl) | ⟨c2, hm, h2, ht, hn, hu⟩)
          · exact Or.inl ha
          · exact Or.inr ⟨c, List.mem_cons_self c cs, h, hc, hh, rfl⟩
          · exact Or.inr (hcons c2 h2 hm ht hn hu)
        · rintro (ha | ⟨c2, hm, h2, ht, hn, hu⟩)
          · exact Or.inl (Or.inl ha)
          · rcases List.mem_cons.mp hm with rfl | hm2
            · rw [hc] at ht
              simp only [Option.some.injEq] at ht
              rw [← ht] at hu
              exact Or.inl (Or.inr hu.symm)
            · exact Or.inr ⟨c2, hm2, h2, ht, hn, hu⟩
    | some none =>
      rw [collectCards_cons_skip (Or.inr hc), ih]
      constructor
      · rintro (ha | ⟨c2, hm, h2, ht, hn, hu⟩)
        · exact Or.inl ha
        · exact Or.inr (hcons c2 h2 hm ht hn hu)
      · rintro (ha | ⟨c2, hm, h2, ht, hn, hu⟩)
        · exact Or.inl ha
        · rcases List.mem_cons.mp hm with rfl | hm2
          · rw [hc] at ht; cases ht
          · exact Or.inr ⟨c2, hm2, h2, ht, hn, hu⟩
    | none =>
      rw [collectCards_cons_skip (Or.inl hc), ih]
      constructor
      · rintro (ha | ⟨c2, hm, h2, ht, hn, hu⟩)
        · exact Or.inl ha
        · exact Or.inr (hcons c2 h2 hm ht hn hu)
      · rintro (ha | ⟨c2, hm, h2, ht, hn, hu⟩)
        · exact Or.inl ha
        · rcases List.mem_cons.mp hm with rfl | hm2
          · rw [hc] at ht; cases ht
          · exact Or.inr ⟨c2, hm2, h2, ht, hn, hu⟩

theorem collectRegions_mem (rs : List (Option (List CCard))) :
    ∀ (acc : List String) (u : String),
    u ∈ collectRegions acc rs ↔ u ∈ acc ∨ IsDiscovered rs u := by
  induction rs with
  | nil =>
    intro acc u
    simp [collectRegions, IsDiscovered]
  | cons region rs ih =>
    intro acc u
    match region with
    | none =>
      rw [collectRegions, ih]
      constructor
      · rintro (ha | ⟨cards, hmem, hrest⟩)
        · exact Or.inl ha
        · exact Or.inr ⟨cards, List.mem_cons_of_mem none hmem, hrest⟩
      · rintro (ha | ⟨cards, hmem, hrest⟩)
        · exact Or.inl ha
        · rcases List.mem_cons.mp hmem with heq | hmemt
          · cases heq
          · exact Or.inr ⟨cards, hmemt, hrest⟩
    | some cards0 =>
      rw [collectRegions, ih, collectCards_mem]
      constructor
      · rintro ((ha | hex) | ⟨cards, hmem, hrest⟩)
        · exact Or.inl ha
        · exact Or.inr ⟨cards0, List.mem_cons_self _ _, hex⟩
        · exact Or.inr ⟨cards, List.mem_cons_of_mem _ hmem, hrest⟩
      · rintro (ha | ⟨cards, hmem, hrest⟩)
        · exact Or.inl (Or.inl ha)
        · rcases List.mem_cons.mp hmem with heq | hmemt
          · simp only [Option.some.injEq] at heq
            subst heq
            exact Or.inl (Or.inr hrest)
          · exact Or.inr ⟨cards, hmemt, hrest⟩

theorem collectCards_nodup (cs : List CCard) :
    ∀ (acc : List String), acc.Nodup → (collectCards acc cs).Nodup := by
  induction cs with
  | nil => intro acc h; exact h
  | cons c cs ih =>
    intro acc h
    match hc : c.titleHref with
    | some (some hh) =>
      rw [collectCards_cons_link hc]
      by_cases hempty : hh = ""
      · rw [if_pos hempty]
        exact ih acc h
      · rw [if_neg hempty]
        by_cases hin : normUrl hh ∈ acc
        · rw [if_pos hin]
          exact ih acc h
        · rw [if_neg hin]
          refine ih _ ?_
          rw [List.nodup_append_comm]
          simp only [List.singleton_append, List.nodup_cons]
          exact ⟨hin, h⟩
    | some none => rw [collectCards_cons_skip (Or.inr hc)]; exact ih acc h
    | none => rw [collectCards_cons_skip (Or.inl hc)]; exact ih acc h

theorem collectRegions_nodup (rs : List (Option (List CCard))) :
    ∀ (acc : List String), acc.Nodup → (collectRegions acc rs).Nodup := by
  induction rs with
  | nil => intro acc h; exact h
  | cons region rs ih =>
    intro acc h
    match region with
    | none => rw [collectRegions]; exact ih acc h
    | some cards => rw [collectRegions]; exact ih _ (collectCards_nodup cards acc h)

/-! ### min / max folds -/

theorem foldl_min_spec {α : Type} [LinearOrder α] (vs : List α) :
    ∀ (v : α), vs.foldl min v ∈ v :: vs ∧ ∀ x ∈ v :: vs, vs.foldl min v ≤ x := by
  induction vs with
  | nil =>
    intro v
    refine ⟨List.mem_singleton_self v, ?_⟩
    intro x hx
    rw [List.mem_singleton.mp hx]
    exact le_rfl
  | cons a vs ih =>
    intro v
    rw [List.foldl_cons]
    obtain ⟨hmem, hle⟩ := ih (min v a)
    constructor
    · rcases List.mem_cons.mp hmem with heq | htail
      · rcases min_choice v a with hmin | hmin
        · rw [heq, hmin]; exact List.mem_cons_self v (a :: vs)
        · rw [heq, hmin]
          exact List.mem_cons_of_mem v (List.mem_cons_self a vs)
      · exact List.mem_cons_of_mem v (List.mem_cons_of_mem a htail)
    · intro x hx
      rcases List.mem_cons.mp hx with rfl | hx2
      · exact le_trans (hle _ (List.mem_cons_self _ vs)) (min_le_left _ _)
      · rcases List.mem_cons.mp hx2 with rfl | hx3
        · exact le_trans (hle _ (List.mem_cons_self _ vs)) (min_le_right _ _)
        · exact hle x (List.mem_cons_of_mem _ hx3)

theorem foldl_max_spec {α : Type} [LinearOrder α] (vs : List α) :
    ∀ (v : α), vs.foldl max v ∈ v :: vs ∧ ∀ x ∈ v :: vs, x ≤ vs.foldl max v := by
  induction vs with
  | nil =>
    intro v
    refine ⟨List.mem_singleton_self v, ?_⟩
    intro x hx
    rw [List.mem_singleton.mp hx]
    exact le_rfl
  | cons a vs ih =>
    intro v
    rw [List.foldl_cons]
    obtain ⟨hmem, hle⟩ := ih (max v a)
    constructor
    · rcases List.mem_cons.mp hmem with heq | htail
      · rcases max_choice v a with hmax | hmax
        · rw [heq, hmax]; exact List.mem_cons_self v (a :: vs)
        · rw [heq, hmax]
          exact List.mem_cons_of_mem v (List.mem_cons_self a vs)
      · exact List.mem_cons_of_mem v (List.mem_cons_of_mem a htail)
    · intro x hx
      rcases List.mem_cons.mp hx with rfl | hx2
      · exact le_trans (le_max_left _ _) (hle _ (List.mem_cons_self _ vs))
      · rcases List.mem_cons.mp hx2 with rfl | hx3
        · exact le_trans (le_max_right _ _) (hle _ (List.mem_cons_self _ vs))
        · exact hle x (List.mem_cons_of_mem _ hx3)

theorem pyMin_eq_of {α : Type} [LinearOrder α] {vals : List α} {mn : α}
    (hmem : mn ∈ vals) (hle : ∀ v ∈ vals, mn ≤ v) : pyMin vals = some mn := by
  match vals with
  | [] => cases hmem
  | v :: vs =>
    obtain ⟨hm, hl⟩ := foldl_min_spec vs v
    rw [pyMin]
    congr 1
    exact le_antisymm (hl mn hmem) (hle _ hm)

theorem pyMax_eq_of {α : Type} [LinearOrder α] {vals : List α} {mx : α}
    (hmem : mx ∈ vals) (hle : ∀ v ∈ vals, v ≤ mx) : pyMax vals = some mx := by
  match vals with
  | [] => cases hmem
  | v :: vs =>
    obtain ⟨hm, hl⟩ := foldl_max_spec vs v
    rw [pyMax]
    congr 1
    exact le_antisymm (hle _ hm) (hl mx hmem)

/-! ### Except plumbing -/

theorem except_bind_ok {α β : Type} {x : Except Unit α} {f : α → Except Unit β} {b : β}
    (h : x.bind f = .ok b) : ∃ a, x = .ok a ∧ f a = .ok b := by
  cases x with
  | error e => simp [Except.bind] at h
  | ok a =>
    refine ⟨a, rfl, ?_⟩
    simpa [Except.bind] using h

theorem except_map_ok {α β : Type} {x : Except Unit α} {f : α → β} {b : β}
    (h : x.map f = .ok b) : ∃ a, x = .ok a ∧ f a = b := by
  cases x with
  | error e => simp [Except.map] at h
  | ok a =>
    refine ⟨a, rfl, ?_⟩
    simpa [Except.map] using h

theorem normUrlL_ne_nil (l : List Char) : normUrlL l ≠ [] := by
  unfold normUrlL
  by_cases hp : "http".data.isPrefixOf l = true
  · rw [if_pos hp]
    intro hl
    subst hl
    exact absurd hp (by decide)
  · rw [if_neg hp]
    intro hl
    rcases List.append_eq_nil.mp hl with ⟨h1, _⟩
    exact absurd h1 (by decide)

theorem normUrl_ne_empty (h : String) : normUrl h ≠ "" := by
  unfold normUrl
  intro heq
  exact normUrlL_ne_nil h.data (by simpa using congrArg String.data heq)

/-! ### The quick-move-in loop, step and run -/

theorem hsBeds_none {c : Card} (h : c.bedsText = none) : hsBeds c = .ok (none, []) := by
  obtain ⟨f1, f2, f3, f4, f5, f6, f7, f8, f9, f10, f11⟩ := c
  have h2 : f4 = none := h
  subst h2
  rfl

theorem hsBaths_none {c : Card} (h : c.bathsText = none) : hsBaths c = .ok (none, []) := by
  obtain ⟨f1, f2, f3, f4, f5, f6, f7, f8, f9, f10, f11⟩ := c
  have h2 : f5 = none := h
  subst h2
  rfl

theorem hsSqft_none {c : Card} (h : c.sqftText = none) : hsSqft c = .ok (none, []) := by
  obtain ⟨f1, f2, f3, f4, f5, f6, f7, f8, f9, f10, f11⟩ := c
  have h2 : f6 = none := h
  subst h2
  rfl

theorem hsImage_none {c : Card} (h : c.jsImg = none) : hsImage c = none := by
  obtain ⟨f1, f2, f3, f4, f5, f6, f7, f8, f9, f10, f11⟩ := c
  have h2 : f7 = none := h
  subst h2
  rfl

theorem hsLink_none {c : Card} (h : c.btnHref = none) (u : String)
    (imgs : List String) : hsLink c u imgs = .ok (u, none, imgs) := by
  obtain ⟨f1, f2, f3, f4, f5, f6, f7, f8, f9, f10, f11⟩ := c
  have h2 : f8 = none := h
  subst h2
  rfl

theorem hsAddressName_none {c : Card} (h : c.streetText = none) :
    hsAddressName c = (none, none) := by
  obtain ⟨f1, f2, f3, f4, f5, f6, f7, f8, f9, f10, f11⟩ := c
  have h2 : f1 = none := h
  subst h2
  rfl

theorem overviewOf_nil {c : Card} (h : c.flags = []) : overviewOf c = none := by
  unfold overviewOf
  rw [if_pos h]

theorem qmiStep_ok_sites {loc : Option Rat × Option Rat} {st : QmiState} {c : Card}
    {st2 : QmiState} (h : qmiStep loc st c = .ok st2) :
    ∃ s, st2.sites = st.sites ++ [s] ∧ HomesiteFromCard loc c s := by
  unfold qmiStep at h
  obtain ⟨pb, hb, h⟩ := except_bind_ok h
  obtain ⟨pba, hba, h⟩ := except_bind_ok h
  obtain ⟨psq, hsq, h⟩ := except_bind_ok h
  obtain ⟨pl, hl, h⟩ := except_bind_ok h
  obtain ⟨idv, hid, h⟩ := except_map_ok h
  subst h
  refine ⟨_, rfl, rfl, rfl, rfl, rfl, rfl, rfl, rfl, rfl, ?_, ?_, ?_, ?_, ?_, ?_⟩
  · intro h2 hbtn
    unfold hsLink at hl
    rw [hbtn] at hl
    have hpl : pl = (normUrl h2, some (normUrl h2), c.detailImages) := by
      cases hl
      rfl
    subst hpl
    refine ⟨rfl, ?_⟩
    unfold hsId at hid
    rw [if_neg (normUrl_ne_empty h2)] at hid
    cases hlot : lotIdOf (normUrl h2) with
    | none => rw [hlot] at hid; cases hid
    | some v =>
      rw [hlot] at hid
      cases hid
      exact ⟨v, rfl, rfl⟩
  · intro hx
    rw [hsBeds_none hx] at hb
    cases hb
    rfl
  · intro hx
    rw [hsBaths_none hx] at hba
    cases hba
    rfl
  · intro hx
    rw [hsSqft_none hx] at hsq
    cases hsq
    rfl
  · intro hx
    show hsImage c = none
    exact hsImage_none hx
  · intro hx
    rw [hsLink_none hx st.curUrl (imagesOf c)] at hl
    cases hl
    rfl

theorem qmiRun_ok_sites (loc : Option Rat × Option Rat) :
    ∀ (cards : List Card) (st st' : QmiState),
      qmiRun loc st cards = .ok st' →
      ∃ news, st'.sites = st.sites ++ news ∧ news.length = cards.length ∧
        ∀ i c, cards.get? i = some c →
          ∃ s, news.get? i = some s ∧ HomesiteFromCard loc c s := by
  intro cards
  induction cards with
  | nil =>
    intro st st' h
    rw [qmiRun] at h
    cases h
    exact ⟨[], by simp, rfl, by intro i c hc; simp at hc⟩
  | cons c cs ih =>
    intro st st' h
    rw [qmiRun] at h
    obtain ⟨st2, hstep, hrest⟩ := except_bind_ok h
    obtain ⟨s0, hs0, hspec⟩ := qmiStep_ok_sites hstep
    obtain ⟨news, hsites, hlen, hidx⟩ := ih st2 st' hrest
    refine ⟨s0 :: news, ?_, by simpa using hlen, ?_⟩
    · rw [hsites, hs0]
      simp
    · intro i c2 hc
      match i with
      | 0 =>
        simp only [List.get?] at hc ⊢
        cases hc
        exact ⟨s0, rfl, hspec⟩
      | i + 1 =>
        simp only [List.get?] at hc ⊢
        exact hidx i c2 hc

/-! ### fetch_page stage destructuring -/

theorem fetch_page_ok {url : String} {p : Page} {r : Record}
    (h : fetch_page url p = some r) :
    ∃ nm hps st, nameStage p = .ok nm ∧ extract_homeplans p.cards = .ok hps ∧
      qmiRun ((addressStage p).latitude, (addressStage p).longitude)
        ⟨url, [], [], [], []⟩ p.cards = .ok st ∧
      r = mkRecord url p nm hps st := by
  unfold fetch_page at h
  cases hE : fetchPageE url p with
  | error e =>
    rw [hE] at h
    simp [Except.toOption] at h
  | ok r2 =>
    rw [hE] at h
    simp only [Except.toOption] at h
    cases h
    unfold fetchPageE at hE
    obtain ⟨cn, hcn, hE⟩ := except_bind_ok hE
    obtain ⟨nm, hnm, hE⟩ := except_bind_ok hE
    obtain ⟨hps, hhp, hE⟩ := except_bind_ok hE
    obtain ⟨st, hqmi, hmk⟩ := except_map_ok hE
    exact ⟨nm, hps, st, hnm, hhp, hqmi, hmk.symm⟩

theorem fetch_page_none_of_homeplans_error {url : String} {p : Page}
    (h : extract_homeplans p.cards = .error ()) : fetch_page url p = none := by
  unfold fetch_page fetchPageE
  cases hcn : communityName url with
  | error e => rfl
  | ok cn =>
    simp only [Except.bind]
    cases hnm : nameStage p with
    | error e => rfl
    | ok nm =>
      simp only [Except.bind]
      rw [h]
      rfl

/-! ### Stage computation lemmas -/

theorem extractHomeplansGo_title_none {c : Card} (h : c.titleText = none)
    (seen : List String) (cs : List Card) :
    extractHomeplansGo seen (c :: cs) = .error () := by
  obtain ⟨f1, f2, f3, f4, f5, f6, f7, f8, f9, f10, f11⟩ := c
  have h2 : f2 = none := h
  subst h2
  rfl

theorem extractHomeplansGo_skip {c : Card} {t : String} (h : c.titleText = some t)
    (seen : List String) (hseen : pyStripS t ∈ seen) (cs : List Card) :
    extractHomeplansGo seen (c :: cs) = extractHomeplansGo seen cs := by
  obtain ⟨f1, f2, f3, f4, f5, f6, f7, f8, f9, f10, f11⟩ := c
  have h2 : f2 = some t := h
  subst h2
  simp only [extractHomeplansGo]
  rw [if_pos hseen]

theorem extractHomeplansGo_missing {c : Card} {t : String} (h : c.titleText = some t)
    (hm : MissingHomeplanField c) (seen : List String) (hseen : pyStripS t ∉ seen)
    (cs : List Card) :
    extractHomeplansGo seen (c :: cs) = .error () := by
  obtain ⟨f1, f2, f3, f4, f5, f6, f7, f8, f9, f10, f11⟩ := c
  have h2 : f2 = some t := h
  subst h2
  have hm2 : f8 = none ∨ f8 = some none ∨ f3 = none ∨ f4 = none ∨ f5 = none ∨
      f6 = none ∨ f7 = none := hm
  simp only [extractHomeplansGo]
  rw [if_neg hseen]
  rcases f8 with _ | (_ | h8) <;>
    rcases f3 with _ | pr <;>
    rcases f4 with _ | bd <;>
    rcases f5 with _ | ba <;>
    rcases f6 with _ | sq <;>
    rcases f7 with _ | im <;>
    first
      | rfl
      | (rcases hm2 with hx | hx | hx | hx | hx | hx | hx <;> cases hx)

theorem extractHomeplansGo_cons_full {c : Card} {t hr pr bd ba sq : String}
    {im : Option String}
    (ht : c.titleText = some t) (hb : c.btnHref = some (some hr))
    (hpr : c.priceText = some pr) (hbd : c.bedsText = some bd)
    (hba : c.bathsText = some ba) (hsq : c.sqftText = some sq)
    (him : c.jsImg = some im)
    (seen : List String) (hseen : pyStripS t ∉ seen) (cs : List Card) :
    extractHomeplansGo seen (c :: cs) =
      (extractHomeplansGo (pyStripS t :: seen) cs).map
        (fun rest =>
          { name := pyStripS t
            url := normUrl hr
            details :=
              { price := pyStripS pr, beds := pyStripS bd, baths := pyStripS ba,
                sqft := pyStripS sq, status := "Actively selling",
                image_url := if im.getD "" = "" then im.getD ""
                  else normUrl (im.getD "") }
            floorplan_images := c.floorplanImages } :: rest) := by
  obtain ⟨f1, f2, f3, f4, f5, f6, f7, f8, f9, f10, f11⟩ := c
  have h2 : f2 = some t := ht
  have h8 : f8 = some (some hr) := hb
  have h3 : f3 = some pr := hpr
  have h4 : f4 = some bd := hbd
  have h5 : f5 = some ba := hba
  have h6 : f6 = some sq := hsq
  have h7 : f7 = some im := him
  subst h2 h8 h3 h4 h5 h6 h7
  simp only [extractHomeplansGo]
  rw [if_neg hseen]

theorem not_missing_fields {c : Card} (h : ¬ MissingHomeplanField c) :
    ∃ hr pr bd ba sq im, c.btnHref = some (some hr) ∧ c.priceText = some pr ∧
      c.bedsText = some bd ∧ c.bathsText = some ba ∧ c.sqftText = some sq ∧
      c.jsImg = some im := by
  have h2 : ¬ (c.btnHref = none ∨ c.btnHref = some none ∨ c.priceText = none ∨
      c.bedsText = none ∨ c.bathsText = none ∨ c.sqftText = none ∨
      c.jsImg = none) := h
  push_neg at h2
  obtain ⟨h8a, h8b, h3, h4, h5, h6, h7⟩ := h2
  rcases hbt : c.btnHref with _ | (_ | hr)
  · exact absurd hbt h8a
  · exact absurd hbt h8b
  rcases hpr : c.priceText with _ | pr
  · exact absurd hpr h3
  rcases hbd : c.bedsText with _ | bd
  · exact absurd hbd h4
  rcases hba : c.bathsText with _ | ba
  · exact absurd hba h5
  rcases hsq : c.sqftText with _ | sq
  · exact absurd hsq h6
  rcases him : c.jsImg with _ | im
  · exact absurd him h7
  exact ⟨hr, pr, bd, ba, sq, im, rfl, rfl, rfl, rfl, rfl, rfl⟩

theorem extract_homeplans_error_of_title_none :
    ∀ (cards : List Card) (seen : List String) (c : Card),
      c ∈ cards → c.titleText = none → extractHomeplansGo seen cards = .error () := by
  intro cards
  induction cards with
  | nil => intro seen c hc; cases hc
  | cons c0 cs ih =>
    intro seen c hc htn
    rcases List.mem_cons.mp hc with rfl | hmem
    · exact extractHomeplansGo_title_none htn seen cs
    · cases ht0 : c0.titleText with
      | none => exact extractHomeplansGo_title_none ht0 seen cs
      | some t0 =>
        by_cases hseen : pyStripS t0 ∈ seen
        · rw [extractHomeplansGo_skip ht0 seen hseen cs]
          exact ih seen c hmem htn
        · by_cases hmf : MissingHomeplanField c0
          · exact extractHomeplansGo_missing ht0 hmf seen hseen cs
          · obtain ⟨hr, pr, bd, ba, sq, im, h8, h3, h4, h5, h6, h7⟩ :=
              not_missing_fields hmf
            rw [extractHomeplansGo_cons_full ht0 h8 h3 h4 h5 h6 h7 seen hseen cs,
              ih (pyStripS t0 :: seen) c hmem htn]
            rfl

theorem extract_homeplans_error_of_missing :
    ∀ (pre : List Card) (seen : List String) (c : Card) (post : List Card)
      (t : String),
      c.titleText = some t → MissingHomeplanField c → pyStripS t ∉ seen →
      (∀ c2 ∈ pre, ∀ t2, c2.titleText = some t2 → ¬ pyStripS t2 = pyStripS t) →
      extractHomeplansGo seen (pre ++ c :: post) = .error () := by
  intro pre
  induction pre with
  | nil =>
    intro seen c post t ht hm hseen _
    exact extractHomeplansGo_missing ht hm seen hseen post
  | cons c0 pre ih =>
    intro seen c post t ht hm hseen hfresh
    rw [List.cons_append]
    cases ht0 : c0.titleText with
    | none => exact extractHomeplansGo_title_none ht0 seen _
    | some t0 =>
      by_cases hsk : pyStripS t0 ∈ seen
      · rw [extractHomeplansGo_skip ht0 seen hsk _]
        exact ih seen c post t ht hm hseen
          (fun c2 h2 => hfresh c2 (List.mem_cons_of_mem c0 h2))
      · by_cases hmf : MissingHomeplanField c0
        · exact extractHomeplansGo_missing ht0 hmf seen hsk _
        · obtain ⟨hr, pr, bd, ba, sq, im, h8, h3, h4, h5, h6, h7⟩ :=
            not_missing_fields hmf
          have hnotin : pyStripS t ∉ pyStripS t0 :: seen := by
            intro hin
            rcases List.mem_cons.mp hin with heq | hseen2
            · exact hfresh c0 (List.mem_cons_self c0 pre) t0 ht0 heq.symm
            · exact hseen hseen2
          rw [extractHomeplansGo_cons_full ht0 h8 h3 h4 h5 h6 h7 seen hsk _,
            ih (pyStripS t0 :: seen) c post t ht hm hnotin
              (fun c2 h2 => hfresh c2 (List.mem_cons_of_mem c0 h2))]
          rfl

theorem extractHomeplansGo_erase :
    ∀ (cs : List Card) (seen : List String),
      extractHomeplansGo seen (cs.map eraseStreetFlags) =
        extractHomeplansGo seen cs := by
  intro cs
  induction cs with
  | nil => intro seen; rfl
  | cons c cs ih =>
    intro seen
    rw [List.map_cons]
    cases ht : c.titleText with
    | none =>
      rw [extractHomeplansGo_title_none ht seen cs,
        extractHomeplansGo_title_none
          (show (eraseStreetFlags c).titleText = none from ht) seen _]
    | some t =>
      by_cases hseen : pyStripS t ∈ seen
      · rw [extractHomeplansGo_skip
            (show (eraseStreetFlags c).titleText = some t from ht) seen hseen _,
          extractHomeplansGo_skip ht seen hseen cs, ih]
      · by_cases hmf : MissingHomeplanField c
        · rw [extractHomeplansGo_missing ht hmf seen hseen cs,
            extractHomeplansGo_missing
              (show (eraseStreetFlags c).titleText = some t from ht)
              (show MissingHomeplanField (eraseStreetFlags c) from hmf)
              seen hseen _]
        · obtain ⟨hr, pr, bd, ba, sq, im, h8, h3, h4, h5, h6, h7⟩ :=
            not_missing_fields hmf
          rw [extractHomeplansGo_cons_full ht h8 h3 h4 h5 h6 h7 seen hseen cs,
            extractHomeplansGo_cons_full
              (show (eraseStreetFlags c).titleText = some t from ht)
              (show (eraseStreetFlags c).btnHref = some (some hr) from h8)
              (show (eraseStreetFlags c).priceText = some pr from h3)
              (show (eraseStreetFlags c).bedsText = some bd from h4)
              (show (eraseStreetFlags c).bathsText = some ba from h5)
              (show (eraseStreetFlags c).sqftText = some sq from h6)
              (show (eraseStreetFlags c).jsImg = some im from h7)
              seen hseen _, ih]
          rfl

theorem qmiStep_erase (loc : Option Rat × Option Rat) (st : QmiState) (c : Card) :
    qmiStep loc (stErase st) (eraseStreetFlags c) = (qmiStep loc st c).map stErase := by
  unfold qmiStep
  rw [show hsBeds (eraseStreetFlags c) = hsBeds c from rfl,
    show hsBaths (eraseStreetFlags c) = hsBaths c from rfl,
    show hsSqft (eraseStreetFlags c) = hsSqft c from rfl,
    show imagesOf (eraseStreetFlags c) = imagesOf c from rfl,
    show (stErase st).curUrl = st.curUrl from rfl,
    show ∀ u imgs, hsLink (eraseStreetFlags c) u imgs = hsLink c u imgs
      from fun _ _ => rfl]
  cases hsBeds c with
  | error e => rfl
  | ok pb =>
    cases hsBaths c with
    | error e => rfl
    | ok pba =>
      cases hsSqft c with
      | error e => rfl
      | ok psq =>
        cases hsLink c st.curUrl (imagesOf c) with
        | error e => rfl
        | ok pl =>
          simp only [Except.bind]
          cases hsId pl.1 with
          | error e => rfl
          | ok idv =>
            refine congrArg Except.ok ?_
            show QmiState.mk _ _ _ _ (List.map eraseSiteFields st.sites ++ _) =
              QmiState.mk _ _ _ _ (List.map eraseSiteFields (st.sites ++ _))
            rw [List.map_append]
            rfl

theorem qmiRun_erase (loc : Option Rat × Option Rat) :
    ∀ (cards : List Card) (st : QmiState),
      qmiRun loc (stErase st) (cards.map eraseStreetFlags) =
        (qmiRun loc st cards).map stErase := by
  intro cards
  induction cards with
  | nil => intro st; rfl
  | cons c cs ih =>
    intro st
    rw [List.map_cons]
    simp only [qmiRun]
    rw [qmiStep_erase loc st c]
    cases qmiStep loc st c with
    | error e => rfl
    | ok st2 =>
      simpa [Except.bind, Except.map] using ih st2

theorem fetch_page_erase (url : String) (p : Page) :
    (fetch_page url { p with cards := p.cards.map eraseStreetFlags }).isSome =
      (fetch_page url p).isSome := by
  unfold fetch_page fetchPageE
  rw [show nameStage { p with cards := p.cards.map eraseStreetFlags } = nameStage p
      from rfl,
    show addressStage { p with cards := p.cards.map eraseStreetFlags } = addressStage p
      from rfl,
    show ({ p with cards := p.cards.map eraseStreetFlags } : Page).cards =
      p.cards.map eraseStreetFlags from rfl,
    show extract_homeplans (p.cards.map eraseStreetFlags) = extract_homeplans p.cards
      from extractHomeplansGo_erase p.cards []]
  have hq := qmiRun_erase ((addressStage p).latitude, (addressStage p).longitude)
    p.cards ⟨url, [], [], [], []⟩
  rw [show stErase ⟨url, [], [], [], []⟩ = (⟨url, [], [], [], []⟩ : QmiState) from rfl]
    at hq
  rw [hq]
  cases communityName url with
  | error e => rfl
  | ok cn =>
    simp only [Except.bind]
    cases nameStage p with
    | error e => rfl
    | ok nm =>
      simp only [Except.bind]
      cases extract_homeplans p.cards with
      | error e => rfl
      | ok hps =>
        simp only [Except.bind]
        cases qmiRun ((addressStage p).latitude, (addressStage p).longitude)
            ⟨url, [], [], [], []⟩ p.cards with
        | error e => rfl
        | ok st => rfl

theorem addressStage_some {p : Page} {t : String} (h : p.addressText = some t) :
    addressStage p =
      ⟨some (String.intercalate ", " (cleanLines t)),
       (cityStateMarket (cleanLines t)).1,
       (cityStateMarket (cleanLines t)).2.1,
       (cityStateMarket (cleanLines t)).2.2,
       (resolveCoords p (String.intercalate ", " (cleanLines t))).1,
       (resolveCoords p (String.intercalate ", " (cleanLines t))).2⟩ := by
  obtain ⟨f1, f2, f3, f4, f5, f6, f7, f8, f9, f10⟩ := p
  have h2 : f3 = some t := h
  subst h2
  rfl

theorem addressStage_none {p : Page} (h : p.addressText = none) :
    addressStage p = ⟨none, none, none, none, none, none⟩ := by
  obtain ⟨f1, f2, f3, f4, f5, f6, f7, f8, f9, f10⟩ := p
  have h2 : f3 = none := h
  subst h2
  rfl

theorem hsAddressName_some {c : Card} {t : String} (h : c.streetText = some t) :
    hsAddressName c =
      (some (streetName t ++ ", McDonough, GA"), some (streetName t)) := by
  obtain ⟨f1, f2, f3, f4, f5, f6, f7, f8, f9, f10, f11⟩ := c
  have h2 : f1 = some t := h
  subst h2
  rfl

theorem resolveCoords_geo {p : Page} (hsc : p.scriptCoords = none)
    (hmc : p.mapCoords = none) (addr : String) :
    resolveCoords p addr =
      (if pyTruthy (get_coordinates p.geoFull p.geoCityState addr).1 &&
          pyTruthy (get_coordinates p.geoFull p.geoCityState addr).2 then
        get_coordinates p.geoFull p.geoCityState addr
      else (none, none)) := by
  obtain ⟨f1, f2, f3, f4, f5, f6, f7, f8, f9, f10⟩ := p
  have h2 : f4 = none := hsc
  have h3 : f5 = none := hmc
  subst h2
  subst h3
  rfl

theorem get_coordinates_full {gf : Option (Rat × Rat)} {la lo : Rat}
    (h : gf = some (la, lo)) (gc : Option (Rat × Rat)) (addr : String) :
    get_coordinates gf gc addr = (some la, some lo) := by
  subst h
  rfl

theorem cityStateMarket_market {partsInit : List String} {last : String}
    {c1 c2 : List Char} {cs : List (List Char)}
    (hne : partsInit ≠ []) (hsplit : pySplitChar ',' last.data = c1 :: c2 :: cs) :
    (cityStateMarket (partsInit ++ [last])).2.2 = some "Atlanta Metro" := by
  have hrev : partsInit.reverse ≠ [] := fun h => hne (List.reverse_eq_nil_iff.mp h)
  obtain ⟨x, xs, hxs⟩ := List.exists_cons_of_ne_nil hrev
  have hr : (partsInit ++ [last]).reverse = last :: x :: xs := by
    rw [List.reverse_append, hxs]
    rfl
  unfold cityStateMarket
  rw [hr]
  simp [hsplit]

/-! ## Claim theorems -/

/-- Claim C1, counterexample: a homeplan card whose `span.price` is
absent does not get an absence marker — the `AttributeError` inside
`extract_homeplans` aborts the whole record and `fetch_page` returns
the absence value `None`, contradicting the claim that a field-level
failure never aborts the enclosing Community Record. -/
theorem c1_counterexample : fetch_page sampleUrl missingPricePage = none := by
  decide

/-- Claim C1 as amended: the extractors on the shared cards are
unforgiving — a card without a title always aborts the record (1), and
a card whose stripped title is new to `extract_homeplans` but which
lacks its details link, a usable `href`, its price, beds, baths or sqft
span, or its js-img element, also aborts, so `fetch_page` returns the
absence value `None` (2).  The only escape for those six elements is
name-deduplication: `extract_homeplans` skips a card whose stripped
title was already seen before touching any other element (3).  Genuine
per-field tolerance exists only for the elements read exclusively by
the quick-move-in loop: on any surviving record each homesite mirrors
its card positionally, a missing street element stores `None` for both
address and name, empty flags store `None` for the overview, and a
guarded element that is absent stores `None` for its own field (4);
erasing every card's street element and flags never changes whether
`fetch_page` returns a record (5); and a concrete page whose second
card repeats the first card's name while missing every other element
still yields a full record, the deduplicated card contributing no
homeplan and a homesite of absence markers (6). -/
theorem c1_field_failure_behavior :
    (∀ (url : String) (p : Page) (c : Card),
        c ∈ p.cards → c.titleText = none → fetch_page url p = none) ∧
    (∀ (url : String) (p : Page) (pre : List Card) (c : Card) (post : List Card)
        (t : String),
        p.cards = pre ++ c :: post → c.titleText = some t →
        MissingHomeplanField c →
        (∀ c2 ∈ pre, ∀ t2, c2.titleText = some t2 → ¬ pyStripS t2 = pyStripS t) →
        fetch_page url p = none) ∧
    (∀ (seen : List String) (c : Card) (cs : List Card) (t : String),
        c.titleText = some t → pyStripS t ∈ seen →
        extractHomeplansGo seen (c :: cs) = extractHomeplansGo seen cs) ∧
    (∀ (url : String) (p : Page) (r : Record),
        fetch_page url p = some r →
        ∀ i c, p.cards.get? i = some c →
          ∃ s, r.homesites.get? i = some s ∧
            (c.streetText = none → s.address = none ∧ s.name = none) ∧
            (c.flags = [] → s.overview = none) ∧
            (c.priceText = none → s.price = none) ∧
            (c.bedsText = none → s.beds = none) ∧
            (c.bathsText = none → s.baths = none) ∧
            (c.sqftText = none → s.sqft = none) ∧
            (c.jsImg = none → s.image_url = none) ∧
            (c.btnHref = none → s.url = none)) ∧
    (∀ (url : String) (p : Page),
        (fetch_page url { p with cards := p.cards.map eraseStreetFlags }).isSome =
          (fetch_page url p).isSome) ∧
    (fetch_page sampleUrl dedupMissingPage).map
        (fun r => (r.homeplans.length,
          r.homesites.map (fun s =>
            [s.price, s.beds, s.baths, s.sqft, s.image_url, s.url,
              s.address, s.name, s.overview]))) =
      some (1, [[some "$350,990", some "4", some "3.5", some "1950",
          some "https://www.centurycommunities.com/img/a.jpg",
          some "https://www.centurycommunities.com/find/ga/lot1---z/",
          some "240 Azalea Dr, McDonough, GA", some "240 Azalea Dr",
          some "New! Model Home"],
        [none, none, none, none, none, none, none, none, none]]) := by
  refine ⟨?_, ?_, ?_, ?_, ?_, by decide⟩
  · intro url p c hc htn
    exact fetch_page_none_of_homeplans_error
      (extract_homeplans_error_of_title_none p.cards [] c hc htn)
  · intro url p pre c post t hcards ht hm hfresh
    apply fetch_page_none_of_homeplans_error
    rw [hcards]
    exact extract_homeplans_error_of_missing pre [] c post t ht hm
      (by simp) hfresh
  · intro seen c cs t ht hseen
    exact extractHomeplansGo_skip ht seen hseen cs
  · intro url p r hr i c hci
    obtain ⟨nm, hps, st, hnm, hhp, hqmi, hmk⟩ := fetch_page_ok hr
    obtain ⟨news, hsites, hlen, hidx⟩ :=
      qmiRun_ok_sites _ p.cards _ st hqmi
    obtain ⟨s, hsi, hspec⟩ := hidx i c hci
    subst hmk
    obtain ⟨hname, hplan, haddr, hprice, _, _, _, hover, hurl,
      hbeds, hbaths, hsqft, himg, hbtn⟩ := hspec
    refine ⟨s, ?_, ?_, ?_, ?_, hbeds, hbaths, hsqft, himg, hbtn⟩
    · show st.sites.get? i = some s
      rw [hsites]
      simpa using hsi
    · intro hx
      rw [haddr, hname, hsAddressName_none hx]
      exact ⟨rfl, rfl⟩
    · intro hx
      rw [hover]
      exact overviewOf_nil hx
    · intro hx
      rw [hprice, hx]
      rfl
  · exact fetch_page_erase

/-- Claim C1, witness: the abort branch of the amended claim applied to
a concrete page whose sole card carries a fresh title but no price
span. -/
theorem c1_witness : fetch_page sampleUrl witnessPricePage = none :=
  c1_field_failure_behavior.2.1 sampleUrl witnessPricePage []
    { sampleCard with priceText := none, bedsText := none } [] " Aspen "
    rfl rfl (Or.inr (Or.inr (Or.inl rfl)))
    (fun c2 h2 => absurd h2 (List.not_mem_nil c2))

/-- Claim C2: for a non-empty accumulated value list the aggregate range
is "min - max unit", collapsing to "min unit" when min equals max
(sqft with thousands separators, beds and baths plain); the reference
sqft examples hold, and empty lists leave every range absent. -/
theorem c2_aggregate_ranges :
    (∀ (vals : List Int) (mn mx : Int),
        mn ∈ vals → (∀ v ∈ vals, mn ≤ v) → mx ∈ vals → (∀ v ∈ vals, v ≤ mx) →
        sqftRange vals = some (if mn = mx then pyCommaFmt mn ++ " sq ft"
            else pyCommaFmt mn ++ " - " ++ pyCommaFmt mx ++ " sq ft") ∧
        bedRange vals = some (if mn = mx then toString mn ++ " Beds"
            else toString mn ++ " - " ++ toString mx ++ " Beds")) ∧
    (∀ (vals : List Rat) (mn mx : Rat),
        mn ∈ vals → (∀ v ∈ vals, mn ≤ v) → mx ∈ vals → (∀ v ∈ vals, v ≤ mx) →
        bathRange vals = some (if mn = mx then pyFloatStr mn ++ " Baths"
            else pyFloatStr mn ++ " - " ++ pyFloatStr mx ++ " Baths")) ∧
    sqftRange [1800, 2200, 1800] = some "1,800 - 2,200 sq ft" ∧
    sqftRange [1800, 1800] = some "1,800 sq ft" ∧
    sqftRange [] = none ∧ bedRange [] = none ∧ bathRange [] = none := by
  refine ⟨?_, ?_, by decide, by decide, rfl, rfl, rfl⟩
  · intro vals mn mx hmn hmnle hmx hmxle
    constructor
    · unfold sqftRange
      rw [pyMin_eq_of hmn hmnle, pyMax_eq_of hmx hmxle]
    · unfold bedRange
      rw [pyMin_eq_of hmn hmnle, pyMax_eq_of hmx hmxle]
  · intro vals mn mx hmn hmnle hmx hmxle
    unfold bathRange
    rw [pyMin_eq_of hmn hmnle, pyMax_eq_of hmx hmxle]

/-- Claim C2, witness: the universal range property applied at the
singleton list `[5]` and at the bath list `[5/2, 3]`. -/
theorem c2_witness :
    sqftRange [5] = some "5 sq ft" ∧
    bathRange [(2 : Rat), 3] = some "2.0 - 3.0 Baths" := by
  constructor
  · have h := (c2_aggregate_ranges.1 [5] 5 5 (by decide) (by decide)
      (by decide) (by decide)).1
    exact h.trans (by decide)
  · have h := c2_aggregate_ranges.2.1 [(2 : Rat), 3] 2 3
      (by decide) (by decide) (by decide) (by decide)
    exact h.trans (by decide)

/-- Claim C3, counterexample: the spec lists "square feet" among the
accepted variants, but the compiled pattern requires the literal `ft`
right after `sq`/`sq.`/`square`, so "2,450 square feet" yields the
absence marker rather than "2450". -/
theorem c3_counterexample : extract_sqft "2,450 square feet" = none := by
  decide

/-- Claim C3 as amended: the accepted variants are `sqft`, `sq ft`,
`sq.ft`, `sq. ft`, `squareft` and `square ft` (not "square feet"): for
any input whose lowercased text contains a digit-and-comma group, then
optional whitespace, `sq`, an optional `.` or `uare`, optional
whitespace and `ft`, the extractor returns the first such group with
commas stripped; it returns the absence marker exactly when no such
occurrence exists. -/
theorem c3_sqft_extractor :
    (∀ (s : String) (p g w m w2 r : List Char),
        lowerData s = p ++ g ++ w ++ 's' :: 'q' :: (m ++ w2 ++ 'f' :: 't' :: r) →
        (∀ c ∈ p, isDC c = false) →
        g ≠ [] → dcAll g → wsAll w → SqftMid m → wsAll w2 →
        extract_sqft s = some (String.mk (g.filter (fun c => ¬ c = ',')))) ∧
    (∀ s : String, extract_sqft s = none ↔ ¬ SqftOcc (lowerData s)) :=
  ⟨extract_sqft_leftmost, extract_sqft_eq_none_iff⟩

/-- Claim C3, witness: the amended extractor property applied to the
reference input "2,450 sq ft". -/
theorem c3_witness : extract_sqft "2,450 sq ft" = some "2450" := by
  have h := c3_sqft_extractor.1 "2,450 sq ft" [] ['2', ',', '4', '5', '0'] [' ']
    [] [' '] [] (by decide) (by decide) (by decide) (by unfold dcAll; decide)
    (by unfold wsAll; decide) (by unfold SqftMid; decide) (by unfold wsAll; decide)
  exact h.trans (by decide)

/-- Claim C4, counterexample: a quick-move-in card with no details link
still receives an id — parsed from the previous card's URL, which the
loop variable `url` still holds.  The second homesite has `url = None`
yet `id = "lot1"`, the id of the first card's detail URL, so the id is
not parsed from that homesite's own detail URL. -/
theorem c4_counterexample :
    (fetch_page sampleUrl staleUrlPage).map
        (fun r => r.homesites.map (fun s => (s.id, s.url))) =
      some [(some "lot1", some "https://www.centurycommunities.com/find/ga/lot1---z/"),
        (some "lot1", none)] := by
  decide

/-- Claim C4 as amended: for every card that carries its own details
link, the homesite id is the substring of the URL's second-to-last path
segment before the first "---"; a card without a link instead inherits
an id parsed from whatever URL the loop variable last held (the
previous linked card's URL, or the page URL). -/
theorem c4_homesite_id :
    ∀ (url : String) (p : Page) (r : Record), fetch_page url p = some r →
      ∀ i c h, p.cards.get? i = some c → c.btnHref = some (some h) →
        ∃ s, r.homesites.get? i = some s ∧ s.url = some (normUrl h) ∧
          ∃ v, lotIdOf (normUrl h) = some v ∧ s.id = some v := by
  intro url p r hr i c h hci hbtn
  obtain ⟨nm, hps, st, hnm, hhp, hqmi, hmk⟩ := fetch_page_ok hr
  obtain ⟨news, hsites, hlen, hidx⟩ := qmiRun_ok_sites _ p.cards _ st hqmi
  obtain ⟨s, hsi, hspec⟩ := hidx i c hci
  subst hmk
  refine ⟨s, ?_, ?_⟩
  · show st.sites.get? i = some s
    rw [hsites]
    simpa using hsi
  · obtain ⟨_, _, _, _, _, _, _, _, hurl, _⟩ := hspec
    exact hurl h hbtn

/-- Claim C4, witness: the amended id rule applied to the first card of
the two-card page. -/
theorem c4_witness :
    (staleRecord.homesites.get? 0).map (fun s => (s.id, s.url)) =
      some (some "lot1",
        some "https://www.centurycommunities.com/find/ga/lot1---z/") := by
  have hr : fetch_page sampleUrl staleUrlPage = some staleRecord := rfl
  obtain ⟨s, hs, hurl, v, hv, hid⟩ := c4_homesite_id sampleUrl staleUrlPage
    staleRecord hr 0 sampleCard "/find/ga/lot1---z/" rfl rfl
  have hv2 : v = "lot1" :=
    Option.some.inj (hv.symm.trans (by decide))
  rw [hs]
  subst hv2
  show some (s.id, s.url) = some (some "lot1",
    some "https://www.centurycommunities.com/find/ga/lot1---z/")
  rw [hid, hurl]
  decide

/-- Claim C5: the listing-link list holds each distinct discovered URL
exactly once, deduplicated globally across all regions (a URL found in
several regions appears once), the model fixing one representative of
the unspecified set order. -/
theorem c5_global_dedup :
    ∀ (regions : List (Option (List CCard))),
      (get_community_links regions).Nodup ∧
      (∀ u, u ∈ get_community_links regions ↔ IsDiscovered regions u) ∧
      (∀ u, IsDiscovered regions u → (get_community_links regions).count u = 1) := by
  intro regions
  have hmem : ∀ u, u ∈ get_community_links regions ↔ IsDiscovered regions u := by
    intro u
    rw [get_community_links, List.mem_dedup, collectRegions_mem]
    simp
  refine ⟨List.nodup_dedup _, hmem, ?_⟩
  intro u hu
  exact List.count_eq_one_of_mem (List.nodup_dedup _) ((hmem u).mpr hu)

/-- Claim C6: the extractors tolerate absent and empty input, return
the absence marker exactly when the pattern does not occur (per-field
for beds/baths), and always capture the leftmost match. -/
theorem c6_extractor_tolerance :
    (extract_price_opt none = none ∧ extract_beds_baths_opt none = (none, none) ∧
      extract_sqft_opt none = none) ∧
    (extract_price "" = none ∧ extract_beds_baths "" = (none, none) ∧
      extract_sqft "" = none) ∧
    (∀ s : String, extract_price s = none ↔ ¬ PriceOcc s.data) ∧
    (∀ s : String, (extract_beds_baths s).1 = none ↔ ¬ BedsOcc (lowerData s)) ∧
    (∀ s : String, (extract_beds_baths s).2 = none ↔ ¬ BathsOcc (lowerData s)) ∧
    (∀ (s : String) (p g r : List Char),
        s.data = p ++ '$' :: (g ++ r) → (∀ c ∈ p, ¬ c = '$') → g ≠ [] → dcAll g →
        extract_price s = some (String.mk ('$' :: (g ++ r).takeWhile isDC))) ∧
    (∀ (s : String) (p g w t r : List Char),
        lowerData s = p ++ g ++ w ++ t ++ r → (∀ c ∈ p, c.isDigit = false) →
        g ≠ [] → digitAll g → wsAll w → BedsTokHead t →
        (extract_beds_baths s).1 = some (String.mk g)) ∧
    (∀ (s : String) (p g w r : List Char),
        lowerData s = p ++ g ++ w ++ 'b' :: 'a' :: r → (∀ c ∈ p, c.isDigit = false) →
        BathGroup g → wsAll w →
        (extract_beds_baths s).2 = some (String.mk g)) :=
  ⟨⟨rfl, rfl, rfl⟩, ⟨rfl, rfl, rfl⟩, extract_price_eq_none_iff,
    bedsPart_eq_none_iff, bathsPart_eq_none_iff, extract_price_leftmost,
    bedsPart_leftmost, bathsPart_leftmost⟩

/-- Claim C6, witness: the leftmost-match clauses applied to concrete
inputs. -/
theorem c6_witness :
    extract_price "x$25y" = some "$25" ∧
    (extract_beds_baths "3 bed x").1 = some "3" ∧
    (extract_beds_baths "2.5 bath").2 = some "2.5" := by
  refine ⟨?_, ?_, ?_⟩
  · have h := c6_extractor_tolerance.2.2.2.2.2.1 "x$25y" ['x'] ['2', '5'] ['y']
      (by decide) (by decide) (by decide) (by unfold dcAll; decide)
    exact h.trans (by decide)
  · have h := c6_extractor_tolerance.2.2.2.2.2.2.1 "3 bed x" [] ['3'] [' ']
      ['b', 'e', 'd'] [' ', 'x'] (by decide) (by decide) (by decide)
      (by unfold digitAll; decide) (by unfold wsAll; decide) (Or.inl rfl)
    exact h.trans (by decide)
  · have h := c6_extractor_tolerance.2.2.2.2.2.2.2 "2.5 bath" [] ['2', '.', '5'] [' ']
      ['t', 'h'] (by decide) (by decide)
      (Or.inr ⟨['2'], ['5'], rfl, by decide, by decide,
        by unfold digitAll; decide, by unfold digitAll; decide⟩)
      (by unfold wsAll; decide)
    exact h.trans (by decide)

/-- Claim C7: the three reference inputs of the spec produce exactly
the reference outputs. -/
theorem c7_reference_outputs :
    extract_sqft "2,450 sq ft" = some "2450" ∧
    extract_price "Starting at $312,990 for..." = some "$312,990" ∧
    extract_beds_baths "4 Bedroom, 3.5 Bath" = (some "4", some "3.5") := by
  refine ⟨by decide, by decide, by decide⟩

/-- Claim C8: the stories estimate is `2 Story` exactly when the
maximal accumulated sqft exceeds 2000, else `1 Story`; it stays absent
on no data; and the end-to-end fixture (two same-named cards, one
move-in home of 1950 sqft) produces one homeplan, sqft range
"1,950 sq ft" and stories "1 Story". -/
theorem c8_stories_heuristic :
    (∀ (vals : List Int) (mx : Int), mx ∈ vals → (∀ v ∈ vals, v ≤ mx) →
        storiesRange vals = some (if 2000 < mx then "2 Story" else "1 Story")) ∧
    storiesRange [1950] = some "1 Story" ∧
    storiesRange [] = none ∧
    (fetch_page sampleUrl fixturePage).map
        (fun r => (r.homeplans.length, r.details.sqft_range, r.details.stories_range)) =
      some (1, some "1,950 sq ft", some "1 Story") := by
  refine ⟨?_, by decide, rfl, by decide⟩
  intro vals mx hmx hle
  unfold storiesRange
  rw [pyMax_eq_of hmx hle]

/-- Claim C8, witness: the threshold rule applied at `[2500]`. -/
theorem c8_witness : storiesRange [2500] = some "2 Story" := by
  have h := c8_stories_heuristic.1 [2500] 2500 (by decide) (by decide)
  exact h.trans (by decide)

/-- Claim C9: whenever the extracted address has at least two cleaned
parts and the last one splits on a comma, the record's market is the
hardcoded "Atlanta Metro"; and every homesite whose card has a street
element gets that street text suffixed with the hardcoded
", McDonough, GA". -/
theorem c9_hardcoded_location :
    ∀ (url : String) (p : Page) (r : Record), fetch_page url p = some r →
      (∀ (t : String) (partsInit : List String) (last : String)
          (c1 c2 : List Char) (cs : List (List Char)),
          p.addressText = some t →
          cleanLines t = partsInit ++ [last] → partsInit ≠ [] →
          pySplitChar ',' last.data = c1 :: c2 :: cs →
          r.market = some "Atlanta Metro") ∧
      (∀ i c t, p.cards.get? i = some c → c.streetText = some t →
          ∃ s, r.homesites.get? i = some s ∧
            s.address = some (streetName t ++ ", McDonough, GA")) := by
  intro url p r hr
  obtain ⟨nm, hps, st, hnm, hhp, hqmi, hmk⟩ := fetch_page_ok hr
  constructor
  · intro t partsInit last c1 c2 cs haddr hparts hne hsplit
    have hmarket : r.market = (addressStage p).market := by
      rw [hmk]
      rfl
    rw [hmarket, addressStage_some haddr]
    show (cityStateMarket (cleanLines t)).2.2 = some "Atlanta Metro"
    rw [hparts]
    exact cityStateMarket_market hne hsplit
  · intro i c t hci hstreet
    obtain ⟨news, hsites, hlen, hidx⟩ := qmiRun_ok_sites _ p.cards _ st hqmi
    obtain ⟨s, hsi, hspec⟩ := hidx i c hci
    subst hmk
    refine ⟨s, ?_, ?_⟩
    · show st.sites.get? i = some s
      rw [hsites]
      simpa using hsi
    · obtain ⟨_, _, haddr2, _⟩ := hspec
      rw [haddr2, hsAddressName_some hstreet]

/-- Claim C9, witness: both hardcoded-location clauses applied to the
sample page. -/
theorem c9_witness :
    sampleRecord.market = some "Atlanta Metro" ∧
    (sampleRecord.homesites.get? 0).map (fun s => s.address) =
      some (some "240 Azalea Dr, McDonough, GA") := by
  have hr : fetch_page sampleUrl samplePage = some sampleRecord := rfl
  have h := c9_hardcoded_location sampleUrl samplePage sampleRecord hr
  constructor
  · exact h.1 " 100 Oakhurst Way \n McDonough, GA 30253 " ["100 Oakhurst Way"]
      "McDonough, GA 30253" "McDonough".data " GA 30253".data [] rfl (by decide)
      (by decide) (by decide)
  · obtain ⟨s, hs, haddr⟩ := h.2 0 sampleCard " 240 Azalea Dr | Lot 12 " rfl rfl
    rw [hs]
    show some s.address = some (some "240 Azalea Dr, McDonough, GA")
    rw [haddr]
    decide

/-- Claim C10: a geocoding-fallback result is stored only when both
coordinates are Python-truthy — a result with latitude or longitude
exactly 0.0 is discarded and the record's coordinates stay absent, and
a result with both coordinates non-zero is stored (given the address
element exists so the fallback runs at all). -/
theorem c10_geocode_truthiness :
    ∀ (url : String) (p : Page) (r : Record) (la lo : Rat),
      fetch_page url p = some r →
      p.scriptCoords = none → p.mapCoords = none → p.geoFull = some (la, lo) →
      ((la = 0 ∨ lo = 0) → r.latitude = none ∧ r.longitude = none) ∧
      (¬ la = 0 → ¬ lo = 0 → p.addressText ≠ none →
        r.latitude = some la ∧ r.longitude = some lo) := by
  intro url p r la lo hr hsc hmc hgf
  obtain ⟨nm, hps, st, hnm, hhp, hqmi, hmk⟩ := fetch_page_ok hr
  have hlat : r.latitude = (addressStage p).latitude := by rw [hmk]; rfl
  have hlon : r.longitude = (addressStage p).longitude := by rw [hmk]; rfl
  constructor
  · intro hzero
    cases haddr : p.addressText with
    | none =>
      rw [hlat, hlon, addressStage_none haddr]
      exact ⟨rfl, rfl⟩
    | some t =>
      rw [hlat, hlon, addressStage_some haddr]
      have hg := get_coordinates_full hgf p.geoCityState
        (String.intercalate ", " (cleanLines t))
      have hfalse : (pyTruthy (get_coordinates p.geoFull p.geoCityState
          (String.intercalate ", " (cleanLines t))).1 &&
          pyTruthy (get_coordinates p.geoFull p.geoCityState
            (String.intercalate ", " (cleanLines t))).2) = false := by
        rw [hg]
        rcases hzero with hz | hz
        · subst hz
          simp [pyTruthy]
        · subst hz
          simp [pyTruthy]
      rw [resolveCoords_geo hsc hmc, hfalse]
      exact ⟨rfl, rfl⟩
  · intro hla hlo haddrne
    cases haddr : p.addressText with
    | none => exact absurd haddr haddrne
    | some t =>
      rw [hlat, hlon, addressStage_some haddr]
      have hg := get_coordinates_full hgf p.geoCityState
        (String.intercalate ", " (cleanLines t))
      have htrue : (pyTruthy (get_coordinates p.geoFull p.geoCityState
          (String.intercalate ", " (cleanLines t))).1 &&
          pyTruthy (get_coordinates p.geoFull p.geoCityState
            (String.intercalate ", " (cleanLines t))).2) = true := by
        rw [hg]
        simp [pyTruthy, bne_iff_ne, hla, hlo]
      rw [resolveCoords_geo hsc hmc, htrue]
      rw [if_pos rfl, hg]
      exact ⟨rfl, rfl⟩

/-- Claim C10, witness: the truthiness rule applied to a page whose
geocoder returns latitude 0.0 (discarded) and to the sample page whose
geocoder returns (33, -84) (stored). -/
theorem c10_witness :
    (zeroLatRecord.latitude = none ∧ zeroLatRecord.longitude = none) ∧
    (sampleRecord.latitude = some 33 ∧ sampleRecord.longitude = some (-84)) := by
  constructor
  · exact (c10_geocode_truthiness sampleUrl zeroLatPage zeroLatRecord 0 (-84)
      rfl rfl rfl rfl).1 (Or.inl rfl)
  · exact (c10_geocode_truthiness sampleUrl samplePage sampleRecord 33 (-84)
      rfl rfl rfl rfl).2 (by decide) (by decide) (by decide)

end CenturyCommunities
